import Mathlib

/-!
Verification development for the liftoff repository (AgentTroll/liftoff).

The development shallowly embeds the computational core of the repository:

* src/liftoff-physics/liftoff-physics/drag.cpp : the atmospheric pressure,
  density and drag model (embedded over the reals, with C++ pow/exp idealized
  as Real.rpow/Real.exp on exact reals);
* src/liftoff-cli/main.cpp : the telemetry conditioning pipeline
  (setup_flight_profile fitting policy, adjust_altitude, the reconciliation
  loop of run_telemetry_profile::Calc), the PIDF velocity decomposition
  (adjust_velocity) and the per-tick dynamics loop of run_test_rocket::Calc.

Floating-point doubles are idealized as exact numbers: the purely rational
parts of the pipeline (curve-rewrite bookkeeping, the altitude-velocity
reconciliation loop) are embedded over the rationals so that concrete runs
are computable, while the parts that use sqrt/pow/exp are embedded over the
reals.  Division by zero follows the Lean convention x / 0 = 0; every place
where the C++ code could divide by zero is noted at its embedding.

The reconciliation loop and adjust_altitude only ever query the two
time-series at grid times i * time_step (time_step is the fixed profile
step), so those series are embedded as grid-indexed sequences of exact
values (the NaN out-of-domain sentinel of telemetry_flight_profile is not
modelled; the series are total on the grid).

Components of the repository whose sources are not in the repository
snapshot (the liftoff-physics bodies, telem_proc, the engine and
pidf_controller classes) are modelled from the specification; each such
definition carries a doc comment that says so and names the missing piece.
-/

namespace Liftoff

/-! ## Atmosphere and drag model (src/liftoff-physics/liftoff-physics/drag.cpp) -/

/-- Drag equation from drag.cpp: cd * rho * v * v / 2 * a. -/
noncomputable def calc_drag (cd rho v a : ℝ) : ℝ :=
  cd * rho * v * v / 2 * a

/-- Ideal-gas density helper from drag.cpp. -/
noncomputable def calc_rho_ideal_state (p T : ℝ) : ℝ :=
  p / (0.2869 * (T + 273.1))

/-- Pressure model from drag.cpp, with the exact branch structure of the
source: upper stratosphere for alt >= 25000, lower stratosphere for
11000 <= alt < 25000, troposphere for alt < 11000, and the fall-through
sentinel -1 of the source kept as the final branch. -/
noncomputable def calc_pressure_earth (alt : ℝ) : ℝ :=
  if 25000 ≤ alt then
    2.488 * (((-131.21 + 0.00299 * alt) + 273.1) / 216.6) ^ (-11.388 : ℝ)
  else if 11000 ≤ alt ∧ alt < 25000 then
    22.65 * Real.exp (1.73 - 0.000157 * alt)
  else if alt < 11000 then
    101.29 * (((15.04 - 0.00649 * alt) + 273.1) / 288.08) ^ (5.256 : ℝ)
  else
    -1

/-- Density model from drag.cpp, same branch structure as the source,
including the fall-through sentinel -1. -/
noncomputable def calc_rho_earth (alt : ℝ) : ℝ :=
  if 25000 ≤ alt then
    calc_rho_ideal_state
      (2.488 * (((-131.21 + 0.00299 * alt) + 273.1) / 216.6) ^ (-11.388 : ℝ))
      (-131.21 + 0.00299 * alt)
  else if 11000 ≤ alt ∧ alt < 25000 then
    calc_rho_ideal_state (22.65 * Real.exp (1.73 - 0.000157 * alt)) (-56.46)
  else if alt < 11000 then
    calc_rho_ideal_state
      (101.29 * (((15.04 - 0.00649 * alt) + 273.1) / 288.08) ^ (5.256 : ℝ))
      (15.04 - 0.00649 * alt)
  else
    -1

/-- Drag at altitude from drag.cpp. -/
noncomputable def calc_drag_earth (cd alt v a : ℝ) : ℝ :=
  calc_drag cd (calc_rho_earth alt) v a

lemma calc_pressure_earth_pos (alt : ℝ) : 0 < calc_pressure_earth alt := by
  unfold calc_pressure_earth
  split_ifs with h1 h2 h3
  · have hb : (0:ℝ) < ((-131.21 + 0.00299 * alt) + 273.1) / 216.6 := by
      have : (216.64:ℝ) ≤ (-131.21 + 0.00299 * alt) + 273.1 := by nlinarith
      positivity
    have := Real.rpow_pos_of_pos hb (-11.388 : ℝ)
    nlinarith
  · have := Real.exp_pos (1.73 - 0.000157 * alt)
    nlinarith
  · have hb : (0:ℝ) < ((15.04 - 0.00649 * alt) + 273.1) / 288.08 := by
      have : (216.74:ℝ) ≤ (15.04 - 0.00649 * alt) + 273.1 := by nlinarith
      positivity
    have := Real.rpow_pos_of_pos hb (5.256 : ℝ)
    nlinarith
  · exact absurd ⟨le_of_not_lt h3, lt_of_not_le h1⟩ h2

lemma calc_rho_earth_pos (alt : ℝ) : 0 < calc_rho_earth alt := by
  unfold calc_rho_earth calc_rho_ideal_state
  split_ifs with h1 h2 h3
  · have hb : (0:ℝ) < ((-131.21 + 0.00299 * alt) + 273.1) / 216.6 := by
      have : (216.64:ℝ) ≤ (-131.21 + 0.00299 * alt) + 273.1 := by nlinarith
      positivity
    have hp := Real.rpow_pos_of_pos hb (-11.388 : ℝ)
    have hnum : (0:ℝ) <
        2.488 * (((-131.21 + 0.00299 * alt) + 273.1) / 216.6) ^ (-11.388 : ℝ) := by
      nlinarith
    have hden : (0:ℝ) < 0.2869 * ((-131.21 + 0.00299 * alt) + 273.1) := by nlinarith
    exact div_pos hnum hden
  · have hp := Real.exp_pos (1.73 - 0.000157 * alt)
    have hnum : (0:ℝ) < 22.65 * Real.exp (1.73 - 0.000157 * alt) := by nlinarith
    have hden : (0:ℝ) < 0.2869 * ((-56.46 : ℝ) + 273.1) := by norm_num
    exact div_pos hnum hden
  · have hb : (0:ℝ) < ((15.04 - 0.00649 * alt) + 273.1) / 288.08 := by
      have : (216.74:ℝ) ≤ (15.04 - 0.00649 * alt) + 273.1 := by nlinarith
      positivity
    have hp := Real.rpow_pos_of_pos hb (5.256 : ℝ)
    have hnum : (0:ℝ) <
        101.29 * (((15.04 - 0.00649 * alt) + 273.1) / 288.08) ^ (5.256 : ℝ) := by
      nlinarith
    have hden : (0:ℝ) < 0.2869 * ((15.04 - 0.00649 * alt) + 273.1) := by nlinarith
    exact div_pos hnum hden
  · exact absurd ⟨le_of_not_lt h3, lt_of_not_le h1⟩ h2

/-- C10: for all cd, rho, v, a, calc_drag equals 0.5 * cd * rho * v^2 * a, and
calc_drag_earth applies calc_drag with the Earth density at the given
altitude. -/
theorem C10_drag_formula (cd rho v a alt : ℝ) :
    calc_drag cd rho v a = 0.5 * cd * rho * v ^ 2 * a ∧
    calc_drag_earth cd alt v a = calc_drag cd (calc_rho_earth alt) v a := by
  constructor
  · unfold calc_drag; ring
  · rfl

/-- C9 (amended): the three altitude bands of the atmospheric model cover
every real altitude, and each band returns a strictly positive value, so no
altitude input - in particular none below the troposphere band - ever
produces the -1 sentinel: the sentinel branch is dead code. -/
theorem C9_no_sentinel_amended (alt : ℝ) :
    0 < calc_pressure_earth alt ∧ 0 < calc_rho_earth alt ∧
    calc_pressure_earth alt ≠ -1 ∧ calc_rho_earth alt ≠ -1 := by
  refine ⟨calc_pressure_earth_pos alt, calc_rho_earth_pos alt, ?_, ?_⟩
  · have := calc_pressure_earth_pos alt
    intro h
    rw [h] at this
    norm_num at this
  · have := calc_rho_earth_pos alt
    intro h
    rw [h] at this
    norm_num at this

/-- C9 counterexample: at the concrete below-sea-level altitude -1000 (an
altitude below the troposphere band) neither calc_pressure_earth nor
calc_rho_earth returns the -1 sentinel, contradicting the claim that such
altitudes return -1. -/
theorem C9_counterexample :
    calc_pressure_earth (-1000) ≠ -1 ∧ calc_rho_earth (-1000) ≠ -1 := by
  constructor
  · have := calc_pressure_earth_pos (-1000)
    intro h
    rw [h] at this
    norm_num at this
  · have := calc_rho_earth_pos (-1000)
    intro h
    rw [h] at this
    norm_num at this

/-! ## PIDF velocity decomposition (adjust_velocity, main.cpp lines 235-263) -/

/-- Two-dimensional-plus-z vector mirroring liftoff::vector (the z component
is always 0 in the simulation paths embedded here). The liftoff-physics
linalg sources are not in the snapshot; the vector is modelled from the
specification as a plain triple of coordinates. -/
structure vec where
  x : ℝ
  y : ℝ
  z : ℝ

/-- Euclidean magnitude of a vector. Modelled from the spec: the magnitude
member of liftoff::vector (linalg sources missing from the snapshot) is the
Euclidean norm used by the drag magnitude and speed computations. -/
noncomputable def vec.mag (v : vec) : ℝ :=
  Real.sqrt (v.x * v.x + v.y * v.y + v.z * v.z)

/-- Modelled from the spec: the pidf_controller class is not in the
snapshot (only main.cpp calls it). Per the specification the vertical
command closes the altitude error within one time step,
v_y = (setpoint - last_state) / dt, so compute_error returns
setpoint - last_state; the controller state is the fixed time step, the
setpoint and the last observed state. -/
structure pidf_controller where
  time_step : ℝ
  setpoint : ℝ
  last_state : ℝ

/-- Modelled from the spec: error of the controller, setpoint minus last
observed state. -/
noncomputable def pidf_controller.compute_error (p : pidf_controller) : ℝ :=
  p.setpoint - p.last_state

/-- Signum as in main.cpp: (x > 0) - (x < 0). -/
noncomputable def signum (x : ℝ) : ℝ :=
  if 0 < x then 1 else if x < 0 then -1 else 0

/-- Embedding of adjust_velocity (main.cpp lines 235-263). The cur_v
parameter is kept although, as in the source, it is never read. -/
noncomputable def adjust_velocity (pidf : pidf_controller) (cur_v : vec)
    (mag_v : ℝ) : vec :=
  if pidf.setpoint = 0 then
    ⟨0, mag_v, 0⟩
  else
    let ty0 := pidf.compute_error / pidf.time_step
    let ty := if mag_v < |ty0| then signum ty0 * mag_v else ty0
    ⟨Real.sqrt (mag_v * mag_v - ty * ty), ty, 0⟩

lemma adjust_velocity_y_clamp (pidf : pidf_controller) (cur_v : vec)
    (mag_v : ℝ) (hsp : pidf.setpoint ≠ 0) (hm : 0 ≤ mag_v) :
    (adjust_velocity pidf cur_v mag_v).y =
      max (-mag_v) (min mag_v ((pidf.setpoint - pidf.last_state) / pidf.time_step)) := by
  unfold adjust_velocity
  rw [if_neg hsp]
  set ty0 := pidf.compute_error / pidf.time_step with hty0
  have hty0e : ty0 = (pidf.setpoint - pidf.last_state) / pidf.time_step := rfl
  simp only
  rw [← hty0e]
  by_cases hc : mag_v < |ty0|
  · rw [if_pos hc]
    rcases lt_trichotomy ty0 0 with hneg | hzero | hpos
    · have habs : |ty0| = -ty0 := abs_of_neg hneg
      have h1 : ty0 < -mag_v := by rw [habs] at hc; linarith
      have h2 : min mag_v ty0 = ty0 := min_eq_right (by linarith)
      have h3 : max (-mag_v) ty0 = -mag_v := max_eq_left (le_of_lt h1)
      have hs : signum ty0 = -1 := by
        unfold signum
        rw [if_neg (by linarith), if_pos hneg]
      rw [h2, h3, hs]
      ring
    · exfalso
      rw [hzero] at hc
      simp at hc
      linarith
    · have habs : |ty0| = ty0 := abs_of_pos hpos
      have h1 : mag_v < ty0 := by rw [habs] at hc; exact hc
      have h2 : min mag_v ty0 = mag_v := min_eq_left (le_of_lt h1)
      have h3 : max (-mag_v) mag_v = mag_v := max_eq_right (by linarith)
      have hs : signum ty0 = 1 := by
        unfold signum
        rw [if_pos hpos]
      rw [h2, h3, hs]
      ring
  · rw [if_neg hc]
    push_neg at hc
    have h1 : ty0 ≤ mag_v := le_trans (le_abs_self ty0) hc
    have h2 : -mag_v ≤ ty0 := by
      have := neg_abs_le ty0
      linarith
    rw [min_eq_right h1, max_eq_right h2]

/-- C3: adjust_velocity with a zero setpoint commands exactly (0, mag_v)
regardless of the prior state; with a nonzero setpoint and a nonnegative
commanded speed mag_v the vertical command is (setpoint - last_state) / dt
clamped in magnitude to mag_v while keeping its sign (equivalently the
clamp of that quotient to the interval from -mag_v to mag_v), and the
horizontal command is the square root of mag_v^2 minus the square of the
vertical command, with a zero z component. -/
theorem C3_adjust_velocity (pidf : pidf_controller) (cur_v : vec) (mag_v : ℝ) :
    (pidf.setpoint = 0 → adjust_velocity pidf cur_v mag_v = ⟨0, mag_v, 0⟩) ∧
    (pidf.setpoint ≠ 0 → 0 ≤ mag_v →
      (adjust_velocity pidf cur_v mag_v).y =
        max (-mag_v)
          (min mag_v ((pidf.setpoint - pidf.last_state) / pidf.time_step)) ∧
      (adjust_velocity pidf cur_v mag_v).x =
        Real.sqrt (mag_v ^ 2 - (adjust_velocity pidf cur_v mag_v).y ^ 2) ∧
      (adjust_velocity pidf cur_v mag_v).z = 0) := by
  constructor
  · intro h
    unfold adjust_velocity
    rw [if_pos h]
  · intro hsp hm
    refine ⟨adjust_velocity_y_clamp pidf cur_v mag_v hsp hm, ?_, ?_⟩
    · unfold adjust_velocity
      rw [if_neg hsp]
      simp only
      congr 1
      ring
    · unfold adjust_velocity
      rw [if_neg hsp]

/-- Witness for C3 at the concrete controller (dt 1, setpoint 10, last
state 0) with commanded speed 3: the hypotheses hold and the vertical
command is the clamp of (10 - 0) / 1 to the interval from -3 to 3. -/
theorem C3_witness :
    ((10:ℝ) ≠ 0) ∧ ((0:ℝ) ≤ 3) ∧
    (adjust_velocity ⟨1, 10, 0⟩ ⟨0, 0, 0⟩ 3).y =
      max (-(3:ℝ)) (min 3 ((10 - 0) / 1)) :=
  ⟨by norm_num, by norm_num,
    ((C3_adjust_velocity ⟨1, 10, 0⟩ ⟨0, 0, 0⟩ 3).2 (by norm_num) (by norm_num)).1⟩

/-! ## Altitude-velocity reconciliation (adjust_altitude, main.cpp lines
280-318, and the conditioning loop of run_telemetry_profile::Calc, lines
464-503)

Both loops read and write the fitted profile only at grid times
i * time_step, so the velocity and altitude series are embedded as total
sequences over the grid index. The break-even time passed to
adjust_altitude is always a trigger time t = b * time_step of the scan, and
the comparison t < break_even of the source coincides with i < b for a
positive time step, so adjust_altitude takes the break index b directly. -/

/-- Pointwise update of a grid sequence, modelling put_altitude at a grid
time. -/
def updf (f : ℕ → ℚ) (i : ℕ) (v : ℚ) : ℕ → ℚ :=
  fun j => if j = i then v else f j

/-- Loop state of adjust_altitude: the altitude sequence being rewritten,
the last_t and last_alt locals, the running velocity integral, and whether
the loop has executed its break statement. -/
structure adj_state where
  alt : ℕ → ℚ
  last_t : ℕ
  last_alt : ℚ
  v_integral : ℚ
  stopped : Bool

/-- One iteration (index i) of the adjust_altitude loop body
(main.cpp lines 287-317). -/
def adj_step (vel orig : ℕ → ℚ) (dt : ℚ) (b i : ℕ) (s : adj_state) : adj_state :=
  if s.stopped then s
  else
    let vi := s.v_integral + vel i * dt
    if i < b then
      ⟨updf s.alt i vi, i, vi, vi, false⟩
    else
      let ta := s.last_alt + (orig i - orig s.last_t)
      if s.alt i ≤ ta then
        ⟨s.alt, s.last_t, s.last_alt, vi, true⟩
      else
        ⟨updf s.alt i ta, i, ta, vi, false⟩

/-- State of the adjust_altitude loop after processing iterations
0, ..., n-1. -/
def adj_run (vel orig alt0 : ℕ → ℚ) (dt : ℚ) (b : ℕ) : ℕ → adj_state
  | 0 => ⟨alt0, 0, 0, 0, false⟩
  | n + 1 => adj_step vel orig dt b n (adj_run vel orig alt0 dt b n)

/-- Embedding of adjust_altitude (main.cpp lines 280-318): the fitted
altitude sequence after the call, where vel and alt0 are the fitted
profile's velocity and altitude, orig is the altitude of the snapshot
profile, b is the break-even grid index and N the number of loop
iterations (max_time / time_step). -/
def adjust_altitude (vel orig alt0 : ℕ → ℚ) (dt : ℚ) (b N : ℕ) : ℕ → ℚ :=
  (adj_run vel orig alt0 dt b N).alt

/-- Inclusive Euler integral of the fitted velocity through grid index j,
as accumulated by adjust_altitude before the write at index j. -/
def euler_int (vel : ℕ → ℚ) (dt : ℚ) (j : ℕ) : ℚ :=
  ∑ k in Finset.range (j + 1), vel k * dt

/-- Velocity integral accumulated after n iterations (exclusive form). -/
def pre_int (vel : ℕ → ℚ) (dt : ℚ) (n : ℕ) : ℚ :=
  ∑ k in Finset.range n, vel k * dt

/-- Value of last_alt when the adjust_altitude loop first enters its
translation branch: 0 when the break index is 0, else the Euler integral
through index b - 1. -/
def entry_alt (vel : ℕ → ℚ) (dt : ℚ) (b : ℕ) : ℚ :=
  if b = 0 then 0 else euler_int vel dt (b - 1)

/-- The translated original altitude that the tail of adjust_altitude
writes at index j: the integral value at the break, plus the original
profile's change since the last prefix time. -/
def trans_alt (vel orig : ℕ → ℚ) (dt : ℚ) (b j : ℕ) : ℚ :=
  entry_alt vel dt b + (orig j - orig (b - 1))

/-- Trigger condition of the conditioning scan at index i, exactly as the
source computes it (main.cpp lines 470-488): at index i the loop locals
hold last_t = (i-1) * dt and last_alt = alt (i-1) for i >= 1 and 0 for
i = 0, and the correction fires when the fitted velocity is below
(alt i - last_alt) / (i * dt - last_t) and last_corrected < i * dt. At
i = 0 the source divides by t - last_t = 0; the embedded quotient is then
the Lean convention value 0, and exactly as in the source the guard
last_corrected < 0 prevents a trigger at index 0 whenever last_corrected
is nonnegative. -/
def code_trig (alt vel : ℕ → ℚ) (dt lastC : ℚ) (i : ℕ) : Prop :=
  vel i < (alt i - (if i = 0 then 0 else alt (i - 1))) /
      ((i : ℚ) * dt - (if i = 0 then 0 else ((i : ℚ) - 1) * dt)) ∧
    lastC < (i : ℚ) * dt

instance code_trig_decidable (alt vel : ℕ → ℚ) (dt lastC : ℚ) (i : ℕ) :
    Decidable (code_trig alt vel dt lastC i) := by
  unfold code_trig
  exact And.decidable

/-- Scan of the conditioning loop of run_telemetry_profile::Calc
(main.cpp lines 465-498) from index i with the given remaining iteration
count: returns the first index at which a correction is triggered, if
any. -/
def scan (alt vel : ℕ → ℚ) (dt lastC : ℚ) : ℕ → ℕ → Option ℕ
  | _, 0 => none
  | i, fuel + 1 =>
    if code_trig alt vel dt lastC i then some i
    else scan alt vel dt lastC (i + 1) fuel

/-- One full pass of the conditioning scan over indices 0, ..., N-1. -/
def scan_pass (alt vel : ℕ → ℚ) (dt lastC : ℚ) (N : ℕ) : Option ℕ :=
  scan alt vel dt lastC 0 N

/-- The outer while-true loop of the conditioning step, with explicit fuel:
none models non-termination within the given fuel, some gives the profile
altitude at exit. -/
def reconcile (vel orig : ℕ → ℚ) (dt : ℚ) (N : ℕ) :
    (ℕ → ℚ) → ℚ → ℕ → Option (ℕ → ℚ)
  | _, _, 0 => none
  | alt, lastC, fuel + 1 =>
    match scan_pass alt vel dt lastC N with
    | none => some alt
    | some b =>
        reconcile vel orig dt N (adjust_altitude vel orig alt dt b N)
          ((b : ℚ) * dt) fuel

/-- The trigger condition of the conditioning scan at index j as the claim
states it: the fitted velocity is below the recorded altitude delta over
one time step, and j lies strictly after the last corrected time. -/
def trig (alt vel : ℕ → ℚ) (dt lastC : ℚ) (j : ℕ) : Prop :=
  vel j < (alt j - alt (j - 1)) / dt ∧ lastC < (j : ℚ) * dt

/-- Expected altitude sequence after running the first n iterations of
adjust_altitude without hitting the break: Euler integral on the prefix
below the break index, translated original profile on the processed tail,
untouched elsewhere. -/
def exp_alt (vel orig alt0 : ℕ → ℚ) (dt : ℚ) (b n j : ℕ) : ℚ :=
  if j < b ∧ j < n then euler_int vel dt j
  else if b ≤ j ∧ j < n then trans_alt vel orig dt b j
  else alt0 j

/-- Expected last_alt local after n break-free iterations of
adjust_altitude. -/
def exp_last_alt (vel orig : ℕ → ℚ) (dt : ℚ) (b n : ℕ) : ℚ :=
  if n = 0 then 0
  else if n - 1 < b then euler_int vel dt (n - 1)
  else trans_alt vel orig dt b (n - 1)

lemma pre_int_succ (vel : ℕ → ℚ) (dt : ℚ) (n : ℕ) :
    pre_int vel dt (n + 1) = pre_int vel dt n + vel n * dt :=
  Finset.sum_range_succ _ n

lemma euler_int_eq_pre_int (vel : ℕ → ℚ) (dt : ℚ) (j : ℕ) :
    euler_int vel dt j = pre_int vel dt (j + 1) := rfl

/-- The break-candidate value computed at the first processed tail index n
(for b <= n) from the loop locals equals the translated original
altitude. -/
lemma exp_ta (vel orig : ℕ → ℚ) (dt : ℚ) (b n : ℕ) (hb : b ≤ n) :
    exp_last_alt vel orig dt b n + (orig n - orig (n - 1)) =
      trans_alt vel orig dt b n := by
  unfold exp_last_alt
  by_cases hn0 : n = 0
  · subst hn0
    have hb0 : b = 0 := Nat.le_zero.mp hb
    subst hb0
    rw [if_pos rfl]
    unfold trans_alt entry_alt
    simp
  · rw [if_neg hn0]
    by_cases hnb : n - 1 < b
    · have hnb' : n = b := by omega
      have hb0 : b ≠ 0 := by omega
      rw [if_pos hnb]
      subst hnb'
      unfold trans_alt entry_alt
      rw [if_neg hb0]
    · rw [if_neg hnb]
      unfold trans_alt
      ring

/-- Description of the adjust_altitude loop state after n iterations, as
long as no processed tail index has crossed back above the still-fitted
altitude. -/
lemma adj_run_desc (vel orig alt0 : ℕ → ℚ) (dt : ℚ) (b n : ℕ)
    (hnc : ∀ k, b ≤ k → k < n → trans_alt vel orig dt b k < alt0 k) :
    (adj_run vel orig alt0 dt b n).stopped = false ∧
    (adj_run vel orig alt0 dt b n).v_integral = pre_int vel dt n ∧
    (adj_run vel orig alt0 dt b n).last_t = n - 1 ∧
    (adj_run vel orig alt0 dt b n).last_alt = exp_last_alt vel orig dt b n ∧
    ∀ j, (adj_run vel orig alt0 dt b n).alt j = exp_alt vel orig alt0 dt b n j := by
  induction n with
  | zero =>
      refine ⟨rfl, ?_, rfl, ?_, ?_⟩
      · simp [adj_run, pre_int]
      · simp [adj_run, exp_last_alt]
      · intro j
        simp [adj_run, exp_alt]
  | succ n ih =>
      obtain ⟨hstop, hvi, hlt, hla, halt⟩ :=
        ih (fun k hk hk2 => hnc k hk (Nat.lt_succ_of_lt hk2))
      have hrun : adj_run vel orig alt0 dt b (n + 1) =
          adj_step vel orig dt b n (adj_run vel orig alt0 dt b n) := rfl
      by_cases hb : n < b
      · -- prefix iteration: write the running integral at index n
        have hstep : adj_run vel orig alt0 dt b (n + 1) =
            ⟨updf (adj_run vel orig alt0 dt b n).alt n
                ((adj_run vel orig alt0 dt b n).v_integral + vel n * dt),
              n,
              (adj_run vel orig alt0 dt b n).v_integral + vel n * dt,
              (adj_run vel orig alt0 dt b n).v_integral + vel n * dt,
              false⟩ := by
          rw [hrun]
          unfold adj_step
          rw [hstop]
          simp [hb]
        have hvi' : (adj_run vel orig alt0 dt b n).v_integral + vel n * dt =
            pre_int vel dt (n + 1) := by
          rw [hvi, pre_int_succ]
        refine ⟨by rw [hstep], by rw [hstep]; exact hvi',
          by rw [hstep]; show n = n + 1 - 1; omega, ?_, ?_⟩
        · rw [hstep]
          show (adj_run vel orig alt0 dt b n).v_integral + vel n * dt =
            exp_last_alt vel orig dt b (n + 1)
          rw [hvi']
          unfold exp_last_alt
          rw [if_neg (Nat.succ_ne_zero n), if_pos (by omega : n + 1 - 1 < b)]
          rw [euler_int_eq_pre_int]
          rfl
        · intro j
          rw [hstep]
          show updf (adj_run vel orig alt0 dt b n).alt n
              ((adj_run vel orig alt0 dt b n).v_integral + vel n * dt) j =
            exp_alt vel orig alt0 dt b (n + 1) j
          unfold updf
          by_cases hj : j = n
          · subst hj
            rw [if_pos rfl, hvi']
            unfold exp_alt
            rw [if_pos ⟨hb, Nat.lt_succ_self j⟩, euler_int_eq_pre_int]
          · rw [if_neg hj, halt j]
            unfold exp_alt
            by_cases hjn : j < n
            · have h1 : (j < b ∧ j < n) ↔ (j < b ∧ j < n + 1) := by omega
              have h2 : (b ≤ j ∧ j < n) ↔ (b ≤ j ∧ j < n + 1) := by omega
              rw [if_congr h1 rfl (if_congr h2 rfl rfl)]
            · have h1 : ¬(j < b ∧ j < n) := by omega
              have h2 : ¬(b ≤ j ∧ j < n) := by omega
              have h3 : ¬(j < b ∧ j < n + 1) := by omega
              have h4 : ¬(b ≤ j ∧ j < n + 1) := by omega
              rw [if_neg h1, if_neg h2, if_neg h3, if_neg h4]
      · -- tail iteration: translate the original profile at index n
        push_neg at hb
        have hta : (adj_run vel orig alt0 dt b n).last_alt +
            (orig n - orig (adj_run vel orig alt0 dt b n).last_t) =
            trans_alt vel orig dt b n := by
          rw [hla, hlt]
          exact exp_ta vel orig dt b n hb
        have haltn : (adj_run vel orig alt0 dt b n).alt n = alt0 n := by
          rw [halt n]
          unfold exp_alt
          rw [if_neg (by omega), if_neg (by omega)]
        have hcross : ¬((adj_run vel orig alt0 dt b n).alt n ≤
            (adj_run vel orig alt0 dt b n).last_alt +
              (orig n - orig (adj_run vel orig alt0 dt b n).last_t)) := by
          rw [haltn, hta]
          exact not_le.mpr (hnc n hb (Nat.lt_succ_self n))
        have hstep : adj_run vel orig alt0 dt b (n + 1) =
            ⟨updf (adj_run vel orig alt0 dt b n).alt n
                ((adj_run vel orig alt0 dt b n).last_alt +
                  (orig n - orig (adj_run vel orig alt0 dt b n).last_t)),
              n,
              (adj_run vel orig alt0 dt b n).last_alt +
                (orig n - orig (adj_run vel orig alt0 dt b n).last_t),
              (adj_run vel orig alt0 dt b n).v_integral + vel n * dt,
              false⟩ := by
          rw [hrun]
          unfold adj_step
          rw [hstop]
          simp [Nat.not_lt.mpr hb, hcross]
        refine ⟨by rw [hstep], ?_,
          by rw [hstep]; show n = n + 1 - 1; omega, ?_, ?_⟩
        · rw [hstep]
          show (adj_run vel orig alt0 dt b n).v_integral + vel n * dt =
            pre_int vel dt (n + 1)
          rw [hvi, pre_int_succ]
        · rw [hstep]
          show (adj_run vel orig alt0 dt b n).last_alt +
              (orig n - orig (adj_run vel orig alt0 dt b n).last_t) =
            exp_last_alt vel orig dt b (n + 1)
          rw [hta]
          unfold exp_last_alt
          rw [if_neg (Nat.succ_ne_zero n), if_neg (by omega : ¬(n + 1 - 1 < b))]
          rfl
        · intro j
          rw [hstep]
          show updf (adj_run vel orig alt0 dt b n).alt n
              ((adj_run vel orig alt0 dt b n).last_alt +
                (orig n - orig (adj_run vel orig alt0 dt b n).last_t)) j =
            exp_alt vel orig alt0 dt b (n + 1) j
          unfold updf
          by_cases hj : j = n
          · subst hj
            rw [if_pos rfl, hta]
            unfold exp_alt
            rw [if_neg (by omega), if_pos ⟨hb, Nat.lt_succ_self j⟩]
          · rw [if_neg hj, halt j]
            unfold exp_alt
            by_cases hjn : j < n
            · have h1 : (j < b ∧ j < n) ↔ (j < b ∧ j < n + 1) := by omega
              have h2 : (b ≤ j ∧ j < n) ↔ (b ≤ j ∧ j < n + 1) := by omega
              rw [if_congr h1 rfl (if_congr h2 rfl rfl)]
            · have h1 : ¬(j < b ∧ j < n) := by omega
              have h2 : ¬(b ≤ j ∧ j < n) := by omega
              have h3 : ¬(j < b ∧ j < n + 1) := by omega
              have h4 : ¬(b ≤ j ∧ j < n + 1) := by omega
              rw [if_neg h1, if_neg h2, if_neg h3, if_neg h4]

/-- Once the adjust_altitude loop has executed its break, later iterations
leave the state unchanged. -/
lemma adj_run_stopped_step (vel orig alt0 : ℕ → ℚ) (dt : ℚ) (b m : ℕ)
    (hstop : (adj_run vel orig alt0 dt b m).stopped = true) :
    adj_run vel orig alt0 dt b (m + 1) = adj_run vel orig alt0 dt b m := by
  show adj_step vel orig dt b m (adj_run vel orig alt0 dt b m) =
    adj_run vel orig alt0 dt b m
  unfold adj_step
  rw [hstop]
  simp

/-- If the first crossing of the translated original profile back above the
still-fitted altitude happens at tail index S, the loop breaks there and the
altitude sequence is frozen from that iteration on. -/
lemma adj_run_frozen (vel orig alt0 : ℕ → ℚ) (dt : ℚ) (b S : ℕ)
    (hb : b ≤ S)
    (hnc : ∀ k, b ≤ k → k < S → trans_alt vel orig dt b k < alt0 k)
    (hcr : alt0 S ≤ trans_alt vel orig dt b S) :
    ∀ m, S < m →
      (adj_run vel orig alt0 dt b m).alt = (adj_run vel orig alt0 dt b S).alt := by
  obtain ⟨hstop, hvi, hlt, hla, halt⟩ := adj_run_desc vel orig alt0 dt b S hnc
  have hta : (adj_run vel orig alt0 dt b S).last_alt +
      (orig S - orig (adj_run vel orig alt0 dt b S).last_t) =
      trans_alt vel orig dt b S := by
    rw [hla, hlt]
    exact exp_ta vel orig dt b S hb
  have haltS : (adj_run vel orig alt0 dt b S).alt S = alt0 S := by
    rw [halt S]
    unfold exp_alt
    rw [if_neg (by omega), if_neg (by omega)]
  have hbreak : adj_run vel orig alt0 dt b (S + 1) =
      ⟨(adj_run vel orig alt0 dt b S).alt,
        (adj_run vel orig alt0 dt b S).last_t,
        (adj_run vel orig alt0 dt b S).last_alt,
        (adj_run vel orig alt0 dt b S).v_integral + vel S * dt,
        true⟩ := by
    show adj_step vel orig dt b S (adj_run vel orig alt0 dt b S) = _
    unfold adj_step
    rw [hstop]
    have hcond : (adj_run vel orig alt0 dt b S).alt S ≤
        (adj_run vel orig alt0 dt b S).last_alt +
          (orig S - orig (adj_run vel orig alt0 dt b S).last_t) := by
      rw [haltS, hta]
      exact hcr
    simp [Nat.not_lt.mpr hb, hcond]
  have hconst : ∀ k, adj_run vel orig alt0 dt b (S + 1 + k) =
      adj_run vel orig alt0 dt b (S + 1) := by
    intro k
    induction k with
    | zero => rfl
    | succ k ihk =>
        show adj_run vel orig alt0 dt b (S + 1 + k + 1) =
          adj_run vel orig alt0 dt b (S + 1)
        have hk1 : adj_run vel orig alt0 dt b (S + 1 + k + 1) =
            adj_step vel orig dt b (S + 1 + k)
              (adj_run vel orig alt0 dt b (S + 1 + k)) := rfl
        rw [hk1, ihk, hbreak]
        unfold adj_step
        simp
  intro m hm
  obtain ⟨k, rfl⟩ : ∃ k, m = S + 1 + k := ⟨m - (S + 1), by omega⟩
  rw [hconst k, hbreak]

/-- Full description of the altitude sequence produced by adjust_altitude:
indices below the break index receive the inclusive Euler integral of the
fitted velocity; processed tail indices receive the translated original
profile until (exclusively) the first tail index whose translated value
reaches the still-fitted altitude; everything else is untouched. -/
lemma adjust_altitude_desc (vel orig alt0 : ℕ → ℚ) (dt : ℚ) (b N j : ℕ) :
    (j < b → j < N → adjust_altitude vel orig alt0 dt b N j = euler_int vel dt j) ∧
    (b ≤ j → j < N →
      (∀ k, b ≤ k → k ≤ j → trans_alt vel orig dt b k < alt0 k) →
      adjust_altitude vel orig alt0 dt b N j = trans_alt vel orig dt b j) ∧
    (b ≤ j → j < N →
      (∃ k, b ≤ k ∧ k ≤ j ∧ alt0 k ≤ trans_alt vel orig dt b k) →
      adjust_altitude vel orig alt0 dt b N j = alt0 j) ∧
    (N ≤ j → adjust_altitude vel orig alt0 dt b N j = alt0 j) := by
  by_cases hex : ∃ k, b ≤ k ∧ alt0 k ≤ trans_alt vel orig dt b k
  · have hPS := Nat.find_spec hex
    have hmin : ∀ m, m < Nat.find hex →
        ¬(b ≤ m ∧ alt0 m ≤ trans_alt vel orig dt b m) :=
      fun m hm => Nat.find_min hex hm
    have hncS : ∀ k, b ≤ k → k < Nat.find hex →
        trans_alt vel orig dt b k < alt0 k := by
      intro k hk hlt
      have h := hmin k hlt
      push_neg at h
      exact h hk
    by_cases hSN : Nat.find hex < N
    · have hfr := adj_run_frozen vel orig alt0 dt b (Nat.find hex)
        hPS.1 hncS hPS.2 N hSN
      obtain ⟨_, _, _, _, haltS⟩ :=
        adj_run_desc vel orig alt0 dt b (Nat.find hex) hncS
      have haltj : ∀ i, adjust_altitude vel orig alt0 dt b N i =
          exp_alt vel orig alt0 dt b (Nat.find hex) i := by
        intro i
        unfold adjust_altitude
        rw [hfr, haltS i]
      refine ⟨?_, ?_, ?_, ?_⟩
      · intro h1 h2
        rw [haltj j]
        unfold exp_alt
        rw [if_pos ⟨h1, lt_of_lt_of_le h1 hPS.1⟩]
      · intro h1 h2 h3
        have hjS : j < Nat.find hex := by
          by_contra hc
          push_neg at hc
          exact absurd (h3 (Nat.find hex) hPS.1 hc) (not_lt.mpr hPS.2)
        rw [haltj j]
        unfold exp_alt
        rw [if_neg (by omega), if_pos ⟨h1, hjS⟩]
      · intro h1 h2 h3
        obtain ⟨k, hk1, hk2, hk3⟩ := h3
        have hSk : Nat.find hex ≤ k := Nat.find_min' hex ⟨hk1, hk3⟩
        rw [haltj j]
        unfold exp_alt
        rw [if_neg (by omega), if_neg (by omega)]
      · intro h1
        have hjS : ¬(j < Nat.find hex) := by omega
        rw [haltj j]
        unfold exp_alt
        rw [if_neg (by omega), if_neg (by omega)]
    · push_neg at hSN
      have hncN : ∀ k, b ≤ k → k < N → trans_alt vel orig dt b k < alt0 k :=
        fun k hk hkN => hncS k hk (lt_of_lt_of_le hkN hSN)
      obtain ⟨_, _, _, _, halt⟩ := adj_run_desc vel orig alt0 dt b N hncN
      refine ⟨?_, ?_, ?_, ?_⟩
      · intro h1 h2
        unfold adjust_altitude
        rw [halt j]
        unfold exp_alt
        rw [if_pos ⟨h1, h2⟩]
      · intro h1 h2 h3
        unfold adjust_altitude
        rw [halt j]
        unfold exp_alt
        rw [if_neg (by omega), if_pos ⟨h1, h2⟩]
      · intro h1 h2 h3
        obtain ⟨k, hk1, hk2, hk3⟩ := h3
        have : k < Nat.find hex := by omega
        exact absurd ⟨hk1, hk3⟩ (hmin k this)
      · intro h1
        unfold adjust_altitude
        rw [halt j]
        unfold exp_alt
        rw [if_neg (by omega), if_neg (by omega)]
  · push_neg at hex
    have hnc : ∀ k, b ≤ k → k < N → trans_alt vel orig dt b k < alt0 k :=
      fun k hk _ => hex k hk
    obtain ⟨_, _, _, _, halt⟩ := adj_run_desc vel orig alt0 dt b N hnc
    refine ⟨?_, ?_, ?_, ?_⟩
    · intro h1 h2
      unfold adjust_altitude
      rw [halt j]
      unfold exp_alt
      rw [if_pos ⟨h1, h2⟩]
    · intro h1 h2 h3
      unfold adjust_altitude
      rw [halt j]
      unfold exp_alt
      rw [if_neg (by omega), if_pos ⟨h1, h2⟩]
    · intro h1 h2 h3
      obtain ⟨k, hk1, hk2, hk3⟩ := h3
      exact absurd hk3 (not_le.mpr (hex k hk1))
    · intro h1
      unfold adjust_altitude
      rw [halt j]
      unfold exp_alt
      rw [if_neg (by omega), if_neg (by omega)]

/-- The scan returns exactly the first index at or after its start index at
which the source's trigger condition holds, within its remaining iteration
budget. -/
lemma scan_some_iff (alt vel : ℕ → ℚ) (dt lastC : ℚ) :
    ∀ fuel i b, scan alt vel dt lastC i fuel = some b ↔
      (i ≤ b ∧ b < i + fuel ∧ code_trig alt vel dt lastC b ∧
        ∀ j, i ≤ j → j < b → ¬code_trig alt vel dt lastC j) := by
  intro fuel
  induction fuel with
  | zero =>
      intro i b
      constructor
      · intro h
        simp [scan] at h
      · intro ⟨h1, h2, _, _⟩
        omega
  | succ fuel ih =>
      intro i b
      have hunf : scan alt vel dt lastC i (fuel + 1) =
          if code_trig alt vel dt lastC i then some i
          else scan alt vel dt lastC (i + 1) fuel := rfl
      by_cases hc : code_trig alt vel dt lastC i
      · rw [hunf, if_pos hc]
        constructor
        · intro h
          have hbi : b = i := by
            have := Option.some.inj h
            omega
          subst hbi
          exact ⟨le_refl b, by omega, hc, fun j hj1 hj2 => absurd (by omega : b < b) (by omega)⟩
        · intro ⟨h1, h2, h3, h4⟩
          by_cases hbi : b = i
          · rw [hbi]
          · exact absurd hc (h4 i (le_refl i) (by omega))
      · rw [hunf, if_neg hc]
        rw [ih (i + 1) b]
        constructor
        · intro ⟨h1, h2, h3, h4⟩
          refine ⟨by omega, by omega, h3, ?_⟩
          intro j hj1 hj2
          by_cases hji : j = i
          · rw [hji]; exact hc
          · exact h4 j (by omega) hj2
        · intro ⟨h1, h2, h3, h4⟩
          have hbi : b ≠ i := fun hbi => hc (hbi ▸ h3)
          refine ⟨by omega, by omega, h3, ?_⟩
          intro j hj1 hj2
          exact h4 j (by omega) hj2

/-- With a positive time step and a nonnegative last-corrected time the
source's trigger condition is the claim's trigger condition together with
the index being at least 1 (index 0 can never trigger, in the embedding as
in the source). -/
lemma code_trig_iff (alt vel : ℕ → ℚ) (dt lastC : ℚ)
    (hdt : 0 < dt) (hlc : 0 ≤ lastC) (i : ℕ) :
    code_trig alt vel dt lastC i ↔ (1 ≤ i ∧ trig alt vel dt lastC i) := by
  by_cases hi : i = 0
  · subst hi
    unfold code_trig
    simp only [Nat.cast_zero, zero_mul]
    constructor
    · intro ⟨_, h2⟩
      exact absurd h2 (not_lt.mpr hlc)
    · intro ⟨h1, _⟩
      omega
  · have h1i : 1 ≤ i := by omega
    unfold code_trig trig
    rw [if_neg hi, if_neg hi]
    have hdiv : (i : ℚ) * dt - ((i : ℚ) - 1) * dt = dt := by ring
    rw [hdiv]
    constructor
    · intro ⟨h1, h2⟩
      exact ⟨h1i, h1, h2⟩
    · intro ⟨_, h1, h2⟩
      exact ⟨h1, h2⟩

/-- C1: in the conditioning loop, a pass over the fitted profile triggers a
correction exactly at the first index b (necessarily at least 1 and below
the step count) whose fitted velocity is below
(altitude b - altitude (b-1)) / dt while b * dt lies strictly after the
last corrected time; the correction then overwrites the fitted altitude
below the break index with the inclusive Euler integral of the fitted
velocity, and from the break index on with the original altitude profile
translated to connect to the integral (each value being the previous
written value plus the original profile's increment), stopping at the
first index whose translated value reaches the still-fitted altitude,
beyond which (and beyond the step count) the altitude is untouched; the
outer loop then rescans from the start, exiting only on a pass with no
correction. -/
theorem C1_reconciliation (alt0 vel orig : ℕ → ℚ) (dt lastC : ℚ)
    (hdt : 0 < dt) (hlc : 0 ≤ lastC) (N b : ℕ) (hbN : b < N) :
    (scan_pass alt0 vel dt lastC N = some b ↔
      (1 ≤ b ∧ trig alt0 vel dt lastC b ∧
        ∀ j, 1 ≤ j → j < b → ¬trig alt0 vel dt lastC j)) ∧
    (∀ j, j < b → adjust_altitude vel orig alt0 dt b N j = euler_int vel dt j) ∧
    (∀ j, b ≤ j → j < N →
      (∀ k, b ≤ k → k ≤ j → trans_alt vel orig dt b k < alt0 k) →
      adjust_altitude vel orig alt0 dt b N j = trans_alt vel orig dt b j) ∧
    (∀ j, b ≤ j → j < N →
      (∃ k, b ≤ k ∧ k ≤ j ∧ alt0 k ≤ trans_alt vel orig dt b k) →
      adjust_altitude vel orig alt0 dt b N j = alt0 j) ∧
    (∀ j, N ≤ j → adjust_altitude vel orig alt0 dt b N j = alt0 j) ∧
    (∀ alt1 : ℕ → ℚ, scan_pass alt1 vel dt lastC N = none →
      reconcile vel orig dt N alt1 lastC 1 = some alt1) := by
    refine ⟨?_, ?_, ?_, ?_, ?_, ?_⟩
    · unfold scan_pass
      rw [scan_some_iff alt0 vel dt lastC N 0 b]
      constructor
      · intro ⟨_, _, h3, h4⟩
        obtain ⟨hb1, htr⟩ := (code_trig_iff alt0 vel dt lastC hdt hlc b).mp h3
        refine ⟨hb1, htr, ?_⟩
        intro j hj1 hj2 htj
        exact h4 j (by omega) hj2
          ((code_trig_iff alt0 vel dt lastC hdt hlc j).mpr ⟨hj1, htj⟩)
      · intro ⟨hb1, htr, hmin⟩
        refine ⟨by omega, by omega, ?_, ?_⟩
        · exact (code_trig_iff alt0 vel dt lastC hdt hlc b).mpr ⟨hb1, htr⟩
        · intro j hj1 hj2 hcj
          obtain ⟨hj1', htj⟩ := (code_trig_iff alt0 vel dt lastC hdt hlc j).mp hcj
          exact hmin j hj1' hj2 htj
    · intro j hj
      exact (adjust_altitude_desc vel orig alt0 dt b N j).1 hj (by omega)
    · intro j hj1 hj2 hj3
      exact (adjust_altitude_desc vel orig alt0 dt b N j).2.1 hj1 hj2 hj3
    · intro j hj1 hj2 hj3
      exact (adjust_altitude_desc vel orig alt0 dt b N j).2.2.1 hj1 hj2 hj3
    · intro j hj
      exact (adjust_altitude_desc vel orig alt0 dt b N j).2.2.2 hj
    · intro alt1 hnone
      unfold reconcile
      rw [hnone]

/-- Witness for C1 at a concrete profile (dt 1, last corrected time 0,
two steps, break index 1): the prefix index 0 receives the Euler
integral. -/
theorem C1_witness :
    (0:ℚ) < 1 ∧ (0:ℚ) ≤ 0 ∧ 1 < 2 ∧
    adjust_altitude (fun _ => 1) (fun _ => 0) (fun _ => 5) 1 1 2 0 =
      euler_int (fun _ => 1) 1 0 :=
  ⟨by norm_num, by norm_num, by norm_num,
    (C1_reconciliation (fun _ => 5) (fun _ => 1) (fun _ => 0) 1 0 (by norm_num)
      (by norm_num) 2 1 (by norm_num)).2.1 0 (by norm_num)⟩

/-- A successful scan from a last-corrected time on the grid yields a
strictly later grid index below the step count. -/
lemma scan_pass_some_lt (alt1 vel : ℕ → ℚ) (dt : ℚ) (hdt : 0 < dt)
    (i b N : ℕ) (h : scan_pass alt1 vel dt ((i : ℚ) * dt) N = some b) :
    i < b ∧ b < N := by
  unfold scan_pass at h
  rw [scan_some_iff] at h
  obtain ⟨_, h2, h3, _⟩ := h
  have hq : (i : ℚ) * dt < (b : ℚ) * dt := h3.2
  have hib : (i : ℚ) < (b : ℚ) := (mul_lt_mul_right hdt).mp hq
  exact ⟨by exact_mod_cast hib, by omega⟩

/-- The outer conditioning loop, started at a last-corrected time on the
grid, exits within the remaining grid size. -/
lemma recon_term (vel orig : ℕ → ℚ) (dt : ℚ) (hdt : 0 < dt) (N : ℕ) :
    ∀ fuel i (alt1 : ℕ → ℚ), N ≤ i + fuel →
      (reconcile vel orig dt N alt1 ((i : ℚ) * dt) (fuel + 1)).isSome := by
  intro fuel
  induction fuel with
  | zero =>
      intro i alt1 hNi
      cases hs : scan_pass alt1 vel dt ((i : ℚ) * dt) N with
      | none => simp [reconcile, hs]
      | some b =>
          obtain ⟨h1, h2⟩ := scan_pass_some_lt alt1 vel dt hdt i b N hs
          omega
  | succ fuel ih =>
      intro i alt1 hNi
      cases hs : scan_pass alt1 vel dt ((i : ℚ) * dt) N with
      | none => simp [reconcile, hs]
      | some b =>
          obtain ⟨h1, h2⟩ := scan_pass_some_lt alt1 vel dt hdt i b N hs
          have hstep : reconcile vel orig dt N alt1 ((i : ℚ) * dt) (fuel + 1 + 1) =
              reconcile vel orig dt N
                (adjust_altitude vel orig alt1 dt b N) ((b : ℚ) * dt) (fuel + 1) := by
            simp [reconcile, hs]
          rw [hstep]
          exact ih b (adjust_altitude vel orig alt1 dt b N) (by omega)

/-- C2: every successful scan from a grid last-corrected time i * dt
triggers at a strictly larger grid index b < N (so the last corrected
time strictly increases through the finite grid), and consequently the
conditioning while-loop terminates: from the initial last-corrected time
0 it exits within N + 1 passes, as witnessed by the fuelled embedding
returning a result with fuel N + 1. -/
theorem C2_reconciliation_terminates (vel orig : ℕ → ℚ) (dt : ℚ)
    (hdt : 0 < dt) (N : ℕ) (alt : ℕ → ℚ) :
    (∀ (alt1 : ℕ → ℚ) (i b : ℕ),
      scan_pass alt1 vel dt ((i : ℚ) * dt) N = some b → i < b ∧ b < N) ∧
    (reconcile vel orig dt N alt 0 (N + 1)).isSome := by
  constructor
  · intro alt1 i b h
    exact scan_pass_some_lt alt1 vel dt hdt i b N h
  · have h0 : ((0 : ℕ) : ℚ) * dt = 0 := by simp
    have := recon_term vel orig dt hdt N N 0 alt (by omega)
    rw [h0] at this
    exact this

/-- Witness for C2 at a concrete one-step profile. -/
theorem C2_witness :
    (0:ℚ) < 1 ∧
    (reconcile (fun _ => 0) (fun _ => 0) 1 1 (fun _ => 0) 0 2).isSome :=
  ⟨by norm_num,
    (C2_reconciliation_terminates (fun _ => 0) (fun _ => 0) 1 (by norm_num) 1
      (fun _ => 0)).2⟩

/-- Value that the leg 0 / leg 2 rewrite of setup_flight_profile stores for
a sample at time t (main.cpp lines 194-199): the fitted polynomial value,
clamped to zero from below. -/
def fitted_leg_value (p : ℚ → ℚ) (t : ℚ) : ℚ :=
  if p t < 0 then 0 else p t

/-- C7 (amended): only the leg 0 / leg 2 rewrite of setup_flight_profile
clamps negative fitted altitudes to zero before storing them; the
reconciliation rewrite stores the raw Euler integral of the fitted
velocity without clamping (and, as the counterexample shows, that stored
value can be negative), so the fitted altitude series can contain negative
values after conditioning. -/
theorem C7_clamping (p : ℚ → ℚ) (t : ℚ) (vel orig alt0 : ℕ → ℚ) (dt : ℚ)
    (b N j : ℕ) :
    0 ≤ fitted_leg_value p t ∧
    (j < b → j < N →
      adjust_altitude vel orig alt0 dt b N j = euler_int vel dt j) := by
  constructor
  · unfold fitted_leg_value
    by_cases h : p t < 0
    · rw [if_pos h]
    · rw [if_neg h]
      exact le_of_not_lt h
  · intro h1 h2
    exact (adjust_altitude_desc vel orig alt0 dt b N j).1 h1 h2

/-- C7 counterexample: a reconciliation rewrite stores the negative value
-5 (fitted velocity -5 on the first step, break index 2), so the claim
that every conditioning write is clamped to be nonnegative is false. -/
theorem C7_counterexample :
    adjust_altitude (fun _ => -5) (fun _ => 0) (fun _ => 100) 1 2 2 0 = -5 ∧
    (-5 : ℚ) < 0 := by
  constructor
  · simp [adjust_altitude, adj_run, adj_step, updf]
  · norm_num

/-- Witness for C7 at concrete inputs: the first conjunct needs no
hypotheses; the reconciliation conjunct is applied at break index 1, two
steps, index 0. -/
theorem C7_witness :
    (0 < 1 ∧ 0 < 2) ∧
    adjust_altitude (fun _ => 2) (fun _ => 0) (fun _ => 5) 1 1 2 0 =
      euler_int (fun _ => 2) 1 0 :=
  ⟨⟨by norm_num, by norm_num⟩,
    (C7_clamping (fun _ => 0) 0 (fun _ => 2) (fun _ => 0) (fun _ => 5) 1 1 2 0).2
      (by norm_num) (by norm_num)⟩

/-! ## Dynamics simulation (run_test_rocket::Calc, main.cpp lines 674-865)

The per-tick loop body is embedded as a composition of stage functions on a
rocket state, in the exact order of the source: normal-force update, weight
update, drag update, propellant check (early exit of the iteration via
continue), throttle command, hardcoded MECO separation at t = 155, engine
shutdown for t > 155, thrust-and-drain loop, then the force-driven body
computation. The source fixes TICKS_PER_SEC = 1, so TIME_STEP = 1 and the
tick index i equals the simulation time in seconds; the source's test
cur_time_s == 155 is embedded as i = 155. -/

/-- Standard gravity constant of main.cpp. -/
noncomputable def ACCEL_G : ℝ := 9.80665

/-- Simulation time step of main.cpp (TICKS_PER_SEC = 1). -/
noncomputable def TIME_STEP : ℝ := 1

/-- Falcon 9 drag coefficient constant of main.cpp. -/
noncomputable def F9_CD : ℝ := 0.25

/-- Falcon 9 frontal area constant of main.cpp. -/
noncomputable def F9_A : ℝ := Real.pi * 2.6 * 2.6

/-- Merlin 1D maximum sea-level thrust constant of main.cpp. -/
noncomputable def MERLIN_MAX_THRUST : ℝ := 854000

/-- Merlin 1D specific impulse constant of main.cpp. -/
noncomputable def MERLIN_ISP : ℝ := 282

/-- Engine model. Modelled from the spec: the engine class sources are not
in the snapshot; per the specification an engine holds its maximum thrust,
specific impulse and a throttle in the unit interval (set_throttle clamps
commanded values into that interval), with thrust = throttle * max thrust
and propellant flow rate = thrust / (isp * g0). -/
structure engine where
  max_thrust : ℝ
  isp : ℝ
  throttle : ℝ

/-- Modelled from the spec: throttle setter, clamped into the unit
interval. -/
noncomputable def engine.set_throttle (e : engine) (t : ℝ) : engine :=
  ⟨e.max_thrust, e.isp, min 1 (max 0 t)⟩

/-- Modelled from the spec: instantaneous thrust. -/
noncomputable def engine.get_thrust (e : engine) : ℝ :=
  e.throttle * e.max_thrust

/-- Modelled from the spec: propellant flow rate, thrust / (isp * g0). -/
noncomputable def engine.get_prop_flow_rate (e : engine) : ℝ :=
  e.get_thrust / (e.isp * ACCEL_G)

/-- State of the test rocket between ticks: the four derivative vectors of
the force-driven body, the mass bookkeeping of the rocket class (base mass
plus remaining propellant; the rocket constructor receives the dry mass
including the full upper stage, and main.cpp holds the first-stage fuel as
propellant), the engine list, and the four applied-force slots weight,
normal, drag, thrust in the order of the forces vector of main.cpp (lines
708-712). The rocket and force_driven_body class bodies are not in the
snapshot; per the spec mass = dry mass + remaining propellant, set_mass is
a direct total-mass overwrite and drain_propellant is non-negative draining
with floor at zero. -/
structure rstate where
  pos : vec
  vel : vec
  acc : vec
  jerk : vec
  base_mass : ℝ
  prop : ℝ
  engines : List engine
  f_w : vec
  f_n : vec
  f_d : vec
  f_t : vec

/-- Modelled from the spec: rocket::get_mass, dry mass plus remaining
propellant. -/
noncomputable def rstate.mass (s : rstate) : ℝ :=
  s.base_mass + s.prop

/-- Normal-force stage (main.cpp lines 722-741): while the altitude is
strictly negative, the normal slot receives the negated sum of the
downward components of the other force slots and a downward-moving body
has its velocity zeroed; otherwise the normal slot is cleared. -/
noncomputable def normal_stage (s : rstate) : rstate :=
  if s.pos.y < 0 then
    { s with
      f_n := ⟨0,
        (if s.f_w.y < 0 then -s.f_w.y else 0) +
          ((if s.f_d.y < 0 then -s.f_d.y else 0) +
            (if s.f_t.y < 0 then -s.f_t.y else 0)), 0⟩,
      vel := if s.vel.y < 0 then ⟨0, 0, 0⟩ else s.vel }
  else
    { s with f_n := ⟨0, 0, 0⟩ }

/-- Weight stage (main.cpp lines 743-746): recompute the weight from the
current mass. -/
noncomputable def weight_stage (s : rstate) : rstate :=
  { s with f_w := ⟨0, -ACCEL_G * s.mass, 0⟩ }

/-- Drag stage (main.cpp lines 748-755): recompute drag opposing the
current velocity; a zero-magnitude velocity leaves the zero vector. -/
noncomputable def drag_stage (s : rstate) : rstate :=
  { s with
    f_d :=
      if s.vel.mag ≠ 0 then
        ⟨-s.vel.x * calc_drag_earth F9_CD s.pos.y s.vel.mag F9_A / s.vel.mag,
          -s.vel.y * calc_drag_earth F9_CD s.pos.y s.vel.mag F9_A / s.vel.mag,
          0⟩
      else ⟨0, 0, 0⟩ }

/-- Throttle stage (main.cpp lines 767-792): when the replay profile has
both velocity components at this tick, command every engine with the
per-engine share of mass times the velocity-error magnitude; commands are
clamped by set_throttle. The source divides by the constant engine count
9 of the engines vector built at lines 687-691. -/
noncomputable def throttle_stage (vx vy : Option ℝ) (s : rstate) : rstate :=
  match vx, vy with
  | some vx, some vy =>
      { s with
        engines := s.engines.map (fun e =>
          e.set_throttle
            (s.mass * Real.sqrt ((vx - s.vel.x) * (vx - s.vel.x) +
                (vy - s.vel.y) * (vy - s.vel.y)) / 9 / e.max_thrust)) }
  | _, _ => s

/-- MECO stage (main.cpp lines 794-800): at tick 155 the upper-stage mass
(second-stage dry + second-stage fuel + payload) is subtracted once via
set_mass; set_mass overwrites the total mass, so the base mass becomes the
new total minus the untouched propellant. -/
noncomputable def meco_stage (i : ℕ) (s : rstate) : rstate :=
  if i = 155 then
    { s with base_mass := (s.mass - 3900 - 92670 - 6800) - s.prop }
  else s

/-- Engine-shutdown stage (main.cpp lines 802-807): zero throttle on every
engine strictly after tick 155. -/
noncomputable def engines_off_stage (i : ℕ) (s : rstate) : rstate :=
  if 155 < i then
    { s with engines := s.engines.map (fun e => e.set_throttle 0) }
  else s

/-- Sequential propellant draining of the thrust loop (main.cpp lines
812-819): each engine drains flow-rate / g0 * dt of propellant, with the
spec-modelled floor at zero of drain_propellant. -/
noncomputable def drain_fold (es : List engine) (p : ℝ) : ℝ :=
  es.foldl (fun pr e => max (pr - e.get_prop_flow_rate / ACCEL_G * TIME_STEP) 0) p

/-- Net thrust over the engines (main.cpp lines 811-815). -/
noncomputable def thrust_net (es : List engine) : ℝ :=
  (es.map engine.get_thrust).sum

/-- Thrust-and-drain stage (main.cpp lines 809-828): accumulate net thrust
and drain propellant per engine, then point the thrust vector along the
velocity-error unit direction when the profile is available at this tick,
else vertically. When the velocity error is zero the source divides zero by
zero (NaN in C++); the embedding's convention value is 0 there - none of
the theorems below depend on that slot. -/
noncomputable def thrust_stage (vx vy : Option ℝ) (s : rstate) : rstate :=
  { s with
    prop := drain_fold s.engines s.prop,
    f_t :=
      match vx, vy with
      | some vx, some vy =>
          ⟨(vx - s.vel.x) /
              Real.sqrt ((vx - s.vel.x) * (vx - s.vel.x) +
                (vy - s.vel.y) * (vy - s.vel.y)) * thrust_net s.engines,
            (vy - s.vel.y) /
              Real.sqrt ((vx - s.vel.x) * (vx - s.vel.x) +
                (vy - s.vel.y) * (vy - s.vel.y)) * thrust_net s.engines,
            0⟩
      | _, _ => ⟨0, thrust_net s.engines, 0⟩ }

/-- Motion stage. Modelled from the spec: compute_forces, compute_motion
and post_compute of the force-driven body (sources not in the snapshot)
sum the applied forces, divide by the current (post-drain) mass for the
acceleration, integrate velocity and position forward by one Euler step
each, and record the jerk as the finite difference of acceleration against
the pre_compute snapshot. -/
noncomputable def motion_stage (s : rstate) : rstate :=
  { s with
    acc := ⟨(s.f_w.x + s.f_n.x + s.f_d.x + s.f_t.x) / s.mass,
      (s.f_w.y + s.f_n.y + s.f_d.y + s.f_t.y) / s.mass,
      (s.f_w.z + s.f_n.z + s.f_d.z + s.f_t.z) / s.mass⟩,
    vel := ⟨s.vel.x + (s.f_w.x + s.f_n.x + s.f_d.x + s.f_t.x) / s.mass * TIME_STEP,
      s.vel.y + (s.f_w.y + s.f_n.y + s.f_d.y + s.f_t.y) / s.mass * TIME_STEP,
      s.vel.z + (s.f_w.z + s.f_n.z + s.f_d.z + s.f_t.z) / s.mass * TIME_STEP⟩,
    pos := ⟨s.pos.x + (s.vel.x + (s.f_w.x + s.f_n.x + s.f_d.x + s.f_t.x) / s.mass * TIME_STEP) * TIME_STEP,
      s.pos.y + (s.vel.y + (s.f_w.y + s.f_n.y + s.f_d.y + s.f_t.y) / s.mass * TIME_STEP) * TIME_STEP,
      s.pos.z + (s.vel.z + (s.f_w.z + s.f_n.z + s.f_d.z + s.f_t.z) / s.mass * TIME_STEP) * TIME_STEP⟩,
    jerk := ⟨((s.f_w.x + s.f_n.x + s.f_d.x + s.f_t.x) / s.mass - s.acc.x) / TIME_STEP,
      ((s.f_w.y + s.f_n.y + s.f_d.y + s.f_t.y) / s.mass - s.acc.y) / TIME_STEP,
      ((s.f_w.z + s.f_n.z + s.f_d.z + s.f_t.z) / s.mass - s.acc.z) / TIME_STEP⟩ }

/-- One tick of run_test_rocket::Calc (main.cpp lines 716-864). The
propellant check (lines 760-765) executes continue, abandoning the rest of
the iteration, after the normal, weight and drag slots have already been
rewritten. -/
noncomputable def rocket_step (prof : ℕ → Option ℝ × Option ℝ) (i : ℕ)
    (s : rstate) : rstate :=
  if (drag_stage (weight_stage (normal_stage s))).prop ≤ 0 then
    drag_stage (weight_stage (normal_stage s))
  else
    motion_stage
      (thrust_stage (prof i).1 (prof i).2
        (engines_off_stage i
          (meco_stage i
            (throttle_stage (prof i).1 (prof i).2
              (drag_stage (weight_stage (normal_stage s)))))))

/-- Initial state of the test rocket (main.cpp lines 680-712): dry mass of
the rocket object is first-stage dry + second-stage dry + payload +
second-stage fuel, propellant is the first-stage fuel, nine Merlin engines
at zero throttle, the weight and a cancelling normal force preset from the
initial total mass 524670, and zero drag and thrust slots. -/
noncomputable def init_state : rstate :=
  { pos := ⟨0, 0, 0⟩
    vel := ⟨0, 0, 0⟩
    acc := ⟨0, 0, 0⟩
    jerk := ⟨0, 0, 0⟩
    base_mass := 25600 + 3900 + 6800 + 92670
    prop := 395700
    engines := List.replicate 9 ⟨MERLIN_MAX_THRUST, MERLIN_ISP, 0⟩
    f_w := ⟨0, -ACCEL_G * 524670, 0⟩
    f_n := ⟨0, ACCEL_G * 524670, 0⟩
    f_d := ⟨0, 0, 0⟩
    f_t := ⟨0, 0, 0⟩ }

/-- The dynamics simulation: state after n ticks from the initial state,
driven by the replay profile. -/
noncomputable def run_sim (prof : ℕ → Option ℝ × Option ℝ) : ℕ → rstate
  | 0 => init_state
  | n + 1 => rocket_step prof n (run_sim prof n)

/-- The claim-side ground-reaction value: the negated sum of the downward
(negative-y) components of the other applied force slots (weight, drag,
thrust - every slot but the normal slot itself). -/
noncomputable def neg_down_sum (s : rstate) : vec :=
  ⟨0, -((([s.f_w, s.f_d, s.f_t].filter (fun f => decide (f.y < 0))).map
      (fun f => f.y)).sum), 0⟩

lemma neg_down_sum_eq (s : rstate) :
    neg_down_sum s = ⟨0,
      (if s.f_w.y < 0 then -s.f_w.y else 0) +
        ((if s.f_d.y < 0 then -s.f_d.y else 0) +
          (if s.f_t.y < 0 then -s.f_t.y else 0)), 0⟩ := by
  unfold neg_down_sum
  by_cases h1 : s.f_w.y < 0 <;> by_cases h2 : s.f_d.y < 0 <;>
    by_cases h3 : s.f_t.y < 0 <;>
      simp [h1, h2, h3] <;> ring

/-- C5 (amended): the ground-reaction normal force is active exactly while
the altitude is strictly negative: it is then the negated sum of the
downward components of the other applied forces, and a strictly downward
velocity is reset to the zero vector (otherwise the velocity is kept);
whenever the altitude is zero or positive - including exactly zero - the
normal slot is set to the zero vector and the velocity is untouched. -/
theorem C5_normal_force (s : rstate) :
    (s.pos.y < 0 →
      (normal_stage s).f_n = neg_down_sum s ∧
      (s.vel.y < 0 → (normal_stage s).vel = ⟨0, 0, 0⟩) ∧
      (0 ≤ s.vel.y → (normal_stage s).vel = s.vel)) ∧
    (0 ≤ s.pos.y →
      (normal_stage s).f_n = ⟨0, 0, 0⟩ ∧ (normal_stage s).vel = s.vel) := by
  constructor
  · intro hy
    refine ⟨?_, ?_, ?_⟩
    · unfold normal_stage
      rw [if_pos hy, neg_down_sum_eq]
    · intro hv
      unfold normal_stage
      rw [if_pos hy]
      simp [hv]
    · intro hv
      unfold normal_stage
      rw [if_pos hy]
      simp [not_lt.mpr hv]
  · intro hy
    unfold normal_stage
    rw [if_neg (not_lt.mpr hy)]
    exact ⟨rfl, rfl⟩

/-- Concrete state at altitude exactly zero with a downward weight force
and a downward velocity. -/
noncomputable def c5_state : rstate :=
  { pos := ⟨0, 0, 0⟩
    vel := ⟨0, -1, 0⟩
    acc := ⟨0, 0, 0⟩
    jerk := ⟨0, 0, 0⟩
    base_mass := 1
    prop := 1
    engines := []
    f_w := ⟨0, -10, 0⟩
    f_n := ⟨0, 3, 0⟩
    f_d := ⟨0, 0, 0⟩
    f_t := ⟨0, 0, 0⟩ }

/-- C5 counterexample: at altitude exactly 0 (which the claim includes in
the active range) with a downward weight of magnitude 10 and a downward
velocity, the code clears the normal slot to the zero vector instead of
the claimed negative sum (0, 10, 0), and does not reset the velocity. -/
theorem C5_counterexample :
    c5_state.pos.y = 0 ∧ c5_state.vel.y < 0 ∧
    (normal_stage c5_state).f_n = ⟨0, 0, 0⟩ ∧
    neg_down_sum c5_state = ⟨0, 10, 0⟩ ∧
    ((⟨0, 0, 0⟩ : vec) ≠ ⟨0, 10, 0⟩) ∧
    (normal_stage c5_state).vel = c5_state.vel := by
  refine ⟨rfl, by norm_num [c5_state], ?_, ?_, ?_, ?_⟩
  · unfold normal_stage c5_state
    norm_num
  · rw [neg_down_sum_eq]
    unfold c5_state
    norm_num
  · intro h
    have := congrArg vec.y h
    norm_num at this
  · unfold normal_stage c5_state
    norm_num

/-- Witness for C5 at a concrete strictly-negative altitude: the normal
slot receives the negative downward sum. -/
theorem C5_witness :
    c5_state.pos.y - 1 < 0 ∧
    (normal_stage { c5_state with pos := ⟨0, -1, 0⟩ }).f_n =
      neg_down_sum { c5_state with pos := ⟨0, -1, 0⟩ } := by
  refine ⟨by norm_num [c5_state], ?_⟩
  exact ((C5_normal_force { c5_state with pos := ⟨0, -1, 0⟩ }).1
    (by norm_num [c5_state])).1

/-- Fields of the pre-propellant-check stages: the normal, weight and drag
stages touch only the force slots (and, on ground contact, the velocity);
position, acceleration, jerk, masses and engines pass through. -/
lemma prefix_stage_fields (s : rstate) :
    (drag_stage (weight_stage (normal_stage s))).pos = s.pos ∧
    (drag_stage (weight_stage (normal_stage s))).acc = s.acc ∧
    (drag_stage (weight_stage (normal_stage s))).jerk = s.jerk ∧
    (drag_stage (weight_stage (normal_stage s))).base_mass = s.base_mass ∧
    (drag_stage (weight_stage (normal_stage s))).prop = s.prop ∧
    (drag_stage (weight_stage (normal_stage s))).engines = s.engines ∧
    (drag_stage (weight_stage (normal_stage s))).vel = (normal_stage s).vel := by
  unfold normal_stage weight_stage drag_stage
  split_ifs <;>
    exact ⟨rfl, rfl, rfl, rfl, rfl, rfl, rfl⟩

/-- The claim-side depleted step: only the thrust and propellant-flow
computations are skipped, while force aggregation, motion computation and
the state commit still run on the already-updated force slots. -/
noncomputable def depleted_step_claim (s : rstate) : rstate :=
  motion_stage (drag_stage (weight_stage (normal_stage s)))

/-- C4 (amended): when the remaining propellant is nonpositive at the
check, the tick ends right there: the normal, weight and drag slots have
already been rewritten, but the thrust command, the propellant flow, the
separation check, the force aggregation, the motion computation and the
state commit are all skipped, so position, acceleration, jerk, masses and
(away from ground contact) velocity are unchanged; the loop itself
continues to the fixed step count with later ticks unaffected by the skip
itself. -/
theorem C4_depleted_step (prof : ℕ → Option ℝ × Option ℝ) (i : ℕ)
    (s : rstate) (h : s.prop ≤ 0) :
    rocket_step prof i s = drag_stage (weight_stage (normal_stage s)) ∧
    (rocket_step prof i s).pos = s.pos ∧
    (rocket_step prof i s).acc = s.acc ∧
    (rocket_step prof i s).jerk = s.jerk ∧
    (rocket_step prof i s).base_mass = s.base_mass ∧
    (rocket_step prof i s).prop = s.prop ∧
    (rocket_step prof i s).engines = s.engines ∧
    (0 ≤ s.pos.y → (rocket_step prof i s).vel = s.vel) := by
  obtain ⟨hpos, hacc, hjerk, hbase, hprop, hengines, hvel⟩ := prefix_stage_fields s
  have hstep : rocket_step prof i s = drag_stage (weight_stage (normal_stage s)) := by
    unfold rocket_step
    rw [if_pos (by rw [hprop]; exact h)]
  refine ⟨hstep, ?_, ?_, ?_, ?_, ?_, ?_, ?_⟩
  · rw [hstep]; exact hpos
  · rw [hstep]; exact hacc
  · rw [hstep]; exact hjerk
  · rw [hstep]; exact hbase
  · rw [hstep]; exact hprop
  · rw [hstep]; exact hengines
  · intro hy
    rw [hstep, hvel]
    unfold normal_stage
    rw [if_neg (not_lt.mpr hy)]

/-- Concrete depleted state above ground: altitude 10, zero velocity, no
propellant, mass 100. -/
noncomputable def c4_state : rstate :=
  { pos := ⟨0, 10, 0⟩
    vel := ⟨0, 0, 0⟩
    acc := ⟨0, 0, 0⟩
    jerk := ⟨0, 0, 0⟩
    base_mass := 100
    prop := 0
    engines := []
    f_w := ⟨0, -5, 0⟩
    f_n := ⟨0, 0, 0⟩
    f_d := ⟨0, 0, 0⟩
    f_t := ⟨0, 0, 0⟩ }

/-- C4 counterexample: at the concrete depleted state the code's tick
leaves the velocity at zero (motion computation skipped by the continue),
while the claim's tick - which skips only thrust and flow and still runs
force aggregation, motion and commit - puts the body into free fall with
vertical velocity -ACCEL_G after one second; the two disagree. -/
theorem C4_counterexample :
    (rocket_step (fun _ => (none, none)) 0 c4_state).vel.y = 0 ∧
    (depleted_step_claim c4_state).vel.y = -ACCEL_G ∧
    (0 : ℝ) ≠ -ACCEL_G := by
  have hpref4 : drag_stage (weight_stage (normal_stage c4_state)) =
      { c4_state with
        f_w := ⟨0, -ACCEL_G * 100, 0⟩
        f_n := ⟨0, 0, 0⟩
        f_d := ⟨0, 0, 0⟩ } := by
    unfold normal_stage weight_stage drag_stage c4_state rstate.mass vec.mag
    norm_num
  have hstep : rocket_step (fun _ => (none, none)) 0 c4_state =
      drag_stage (weight_stage (normal_stage c4_state)) := by
    unfold rocket_step
    rw [if_pos]
    rw [(prefix_stage_fields c4_state).2.2.2.2.1]
    unfold c4_state
    norm_num
  refine ⟨?_, ?_, ?_⟩
  · rw [hstep, hpref4]
    norm_num [c4_state]
  · unfold depleted_step_claim
    rw [hpref4]
    unfold motion_stage rstate.mass TIME_STEP c4_state
    norm_num
    ring
  · unfold ACCEL_G
    norm_num

/-- Witness for C4 at the concrete depleted state: the hypothesis holds and
the tick reduces to the three pre-check stages. -/
theorem C4_witness :
    c4_state.prop ≤ 0 ∧
    rocket_step (fun _ => (none, none)) 3 c4_state =
      drag_stage (weight_stage (normal_stage c4_state)) :=
  ⟨by norm_num [c4_state],
    (C4_depleted_step (fun _ => (none, none)) 3 c4_state
      (by norm_num [c4_state])).1⟩

/-- Upper-stage mass subtracted at separation: second-stage dry mass +
second-stage fuel mass + payload mass. -/
noncomputable def upper_stage_mass : ℝ := 3900 + 92670 + 6800

/-- Largest possible per-engine propellant drain in one tick: full-throttle
flow rate over g0 times the time step. -/
noncomputable def max_drain : ℝ :=
  MERLIN_MAX_THRUST / (MERLIN_ISP * ACCEL_G) / ACCEL_G * TIME_STEP

/-- Engine-list invariant of the simulation: nine Merlin engines with
throttles in the unit interval. -/
def engines_ok (es : List engine) : Prop :=
  es.length = 9 ∧ ∀ e ∈ es, e.max_thrust = MERLIN_MAX_THRUST ∧
    e.isp = MERLIN_ISP ∧ 0 ≤ e.throttle ∧ e.throttle ≤ 1

lemma ACCEL_G_pos : (0 : ℝ) < ACCEL_G := by
  unfold ACCEL_G
  norm_num

lemma max_drain_nonneg : (0 : ℝ) ≤ max_drain := by
  unfold max_drain MERLIN_MAX_THRUST MERLIN_ISP ACCEL_G TIME_STEP
  positivity

/-- Per-engine drain bounds under the engine invariant. -/
lemma drain_amt_bounds (e : engine) (he : e.max_thrust = MERLIN_MAX_THRUST ∧
    e.isp = MERLIN_ISP ∧ 0 ≤ e.throttle ∧ e.throttle ≤ 1) :
    0 ≤ e.get_prop_flow_rate / ACCEL_G * TIME_STEP ∧
    e.get_prop_flow_rate / ACCEL_G * TIME_STEP ≤ max_drain := by
  obtain ⟨hmt, hisp, ht0, ht1⟩ := he
  have heq : e.get_prop_flow_rate / ACCEL_G * TIME_STEP = e.throttle * max_drain := by
    unfold engine.get_prop_flow_rate engine.get_thrust max_drain
    rw [hmt, hisp]
    ring
  rw [heq]
  constructor
  · exact mul_nonneg ht0 max_drain_nonneg
  · nlinarith [max_drain_nonneg]

/-- Bounds for the sequential drain of the thrust loop: the propellant
never goes negative, never increases, and decreases by at most the
engine count times the per-engine maximum drain. -/
lemma drain_fold_bounds (es : List engine)
    (hes : ∀ e ∈ es, e.max_thrust = MERLIN_MAX_THRUST ∧ e.isp = MERLIN_ISP ∧
      0 ≤ e.throttle ∧ e.throttle ≤ 1) :
    ∀ p : ℝ, 0 ≤ p →
      0 ≤ drain_fold es p ∧ drain_fold es p ≤ p ∧
        p - (es.length : ℝ) * max_drain ≤ drain_fold es p := by
  induction es with
  | nil =>
      intro p hp
      refine ⟨hp, le_refl p, ?_⟩
      simp [drain_fold]
  | cons e es ih =>
      intro p hp
      have he := hes e (List.mem_cons_self e es)
      have hes' : ∀ e2 ∈ es, e2.max_thrust = MERLIN_MAX_THRUST ∧
          e2.isp = MERLIN_ISP ∧ 0 ≤ e2.throttle ∧ e2.throttle ≤ 1 :=
        fun e2 h2 => hes e2 (List.mem_cons_of_mem e h2)
      obtain ⟨hd0, hd1⟩ := drain_amt_bounds e he
      have hq0 : (0 : ℝ) ≤ max (p - e.get_prop_flow_rate / ACCEL_G * TIME_STEP) 0 :=
        le_max_right _ 0
      have hstep : drain_fold (e :: es) p =
          drain_fold es (max (p - e.get_prop_flow_rate / ACCEL_G * TIME_STEP) 0) := rfl
      obtain ⟨h1, h2, h3⟩ := ih hes' _ hq0
      rw [hstep]
      refine ⟨h1, ?_, ?_⟩
      · have : max (p - e.get_prop_flow_rate / ACCEL_G * TIME_STEP) 0 ≤ p :=
          max_le (by linarith) hp
        linarith
      · have hmaxge : p - e.get_prop_flow_rate / ACCEL_G * TIME_STEP ≤
            max (p - e.get_prop_flow_rate / ACCEL_G * TIME_STEP) 0 :=
          le_max_left _ 0
        have hlen : ((e :: es).length : ℝ) = (es.length : ℝ) + 1 := by
          push_cast [List.length_cons]
          ring
        rw [hlen]
        nlinarith

lemma set_throttle_ok (e : engine) (x : ℝ)
    (hmt : e.max_thrust = MERLIN_MAX_THRUST) (hisp : e.isp = MERLIN_ISP) :
    (e.set_throttle x).max_thrust = MERLIN_MAX_THRUST ∧
    (e.set_throttle x).isp = MERLIN_ISP ∧
    0 ≤ (e.set_throttle x).throttle ∧ (e.set_throttle x).throttle ≤ 1 := by
  unfold engine.set_throttle
  refine ⟨hmt, hisp, ?_, ?_⟩
  · exact le_min (by norm_num) (le_max_left 0 x)
  · exact min_le_left 1 _

/-- Mapping a clamped throttle command over a healthy engine list keeps the
engine invariant. -/
lemma engines_map_ok (es : List engine) (g : engine → ℝ) (h : engines_ok es) :
    engines_ok (es.map (fun e => e.set_throttle (g e))) := by
  obtain ⟨hlen, hes⟩ := h
  constructor
  · rw [List.length_map]
    exact hlen
  · intro e2 h2
    rw [List.mem_map] at h2
    obtain ⟨e, he, rfl⟩ := h2
    obtain ⟨hmt, hisp, _, _⟩ := hes e he
    exact set_throttle_ok e (g e) hmt hisp

lemma throttle_stage_fields (vx vy : Option ℝ) (s : rstate) :
    (throttle_stage vx vy s).prop = s.prop ∧
    (throttle_stage vx vy s).base_mass = s.base_mass := by
  unfold throttle_stage
  cases vx <;> cases vy <;> exact ⟨rfl, rfl⟩

lemma throttle_stage_engines_ok (vx vy : Option ℝ) (s : rstate)
    (h : engines_ok s.engines) : engines_ok (throttle_stage vx vy s).engines := by
  unfold throttle_stage
  cases vx with
  | none => exact h
  | some vx =>
      cases vy with
      | none => exact h
      | some vy => exact engines_map_ok s.engines _ h

lemma meco_stage_fields (i : ℕ) (s : rstate) :
    (meco_stage i s).prop = s.prop ∧
    (meco_stage i s).engines = s.engines ∧
    (meco_stage i s).base_mass =
      (if i = 155 then s.base_mass - upper_stage_mass else s.base_mass) := by
  unfold meco_stage
  split_ifs with h
  · refine ⟨rfl, rfl, ?_⟩
    show s.mass - 3900 - 92670 - 6800 - s.prop = s.base_mass - upper_stage_mass
    unfold rstate.mass upper_stage_mass
    ring
  · exact ⟨rfl, rfl, rfl⟩

lemma engines_off_stage_fields (i : ℕ) (s : rstate) :
    (engines_off_stage i s).prop = s.prop ∧
    (engines_off_stage i s).base_mass = s.base_mass := by
  unfold engines_off_stage
  split_ifs <;> exact ⟨rfl, rfl⟩

lemma engines_off_stage_engines_ok (i : ℕ) (s : rstate)
    (h : engines_ok s.engines) : engines_ok (engines_off_stage i s).engines := by
  unfold engines_off_stage
  split_ifs
  · exact engines_map_ok s.engines _ h
  · exact h

lemma thrust_stage_fields (vx vy : Option ℝ) (s : rstate) :
    (thrust_stage vx vy s).prop = drain_fold s.engines s.prop ∧
    (thrust_stage vx vy s).base_mass = s.base_mass ∧
    (thrust_stage vx vy s).engines = s.engines := by
  unfold thrust_stage
  exact ⟨rfl, rfl, rfl⟩

lemma motion_stage_fields (s : rstate) :
    (motion_stage s).prop = s.prop ∧
    (motion_stage s).base_mass = s.base_mass ∧
    (motion_stage s).engines = s.engines := by
  unfold motion_stage
  exact ⟨rfl, rfl, rfl⟩

lemma prefix_stage_engines_ok (s : rstate) (h : engines_ok s.engines) :
    engines_ok (drag_stage (weight_stage (normal_stage s))).engines := by
  rw [(prefix_stage_fields s).2.2.2.2.2.1]
  exact h

/-- One tick preserves the engine invariant and drains at most nine
maximal engine drains of propellant (never below zero and never
increasing), and changes the base mass exactly at tick 155 on a
propellant-positive state, by the upper-stage mass. -/
lemma rocket_step_mass (prof : ℕ → Option ℝ × Option ℝ) (i : ℕ) (s : rstate)
    (hok : engines_ok s.engines) (hp : 0 ≤ s.prop) :
    engines_ok (rocket_step prof i s).engines ∧
    0 ≤ (rocket_step prof i s).prop ∧
    (rocket_step prof i s).prop ≤ s.prop ∧
    s.prop - 9 * max_drain ≤ (rocket_step prof i s).prop ∧
    (rocket_step prof i s).base_mass =
      (if i = 155 ∧ 0 < s.prop then s.base_mass - upper_stage_mass
       else s.base_mass) := by
  have hpre := prefix_stage_fields s
  by_cases hd : (drag_stage (weight_stage (normal_stage s))).prop ≤ 0
  · have hstep : rocket_step prof i s = drag_stage (weight_stage (normal_stage s)) := by
      unfold rocket_step
      rw [if_pos hd]
    rw [hstep, hpre.2.2.2.2.2.1, hpre.2.2.2.2.1, hpre.2.2.2.1]
    have hple : s.prop ≤ 0 := by
      rw [hpre.2.2.2.2.1] at hd
      exact hd
    refine ⟨hok, hp, le_refl _, ?_, ?_⟩
    · nlinarith [max_drain_nonneg]
    · rw [if_neg]
      intro hcon
      exact absurd hcon.2 (not_lt.mpr hple)
  · have hstep : rocket_step prof i s =
        motion_stage
          (thrust_stage (prof i).1 (prof i).2
            (engines_off_stage i
              (meco_stage i
                (throttle_stage (prof i).1 (prof i).2
                  (drag_stage (weight_stage (normal_stage s))))))) := by
      unfold rocket_step
      rw [if_neg hd]
    have hppos : 0 < s.prop := by
      rw [hpre.2.2.2.2.1] at hd
      exact lt_of_not_le hd
    -- engine invariant through the stages
    have hok3 := prefix_stage_engines_ok s hok
    have hok4 := throttle_stage_engines_ok (prof i).1 (prof i).2 _ hok3
    have hok5 : engines_ok (meco_stage i (throttle_stage (prof i).1 (prof i).2
        (drag_stage (weight_stage (normal_stage s))))).engines := by
      rw [(meco_stage_fields i _).2.1]
      exact hok4
    have hok6 := engines_off_stage_engines_ok i _ hok5
    -- propellant through the stages
    have hprop6 : (engines_off_stage i
        (meco_stage i (throttle_stage (prof i).1 (prof i).2
          (drag_stage (weight_stage (normal_stage s)))))).prop = s.prop := by
      rw [(engines_off_stage_fields i _).1, (meco_stage_fields i _).1,
        (throttle_stage_fields _ _ _).1, hpre.2.2.2.2.1]
    -- base mass through the stages
    have hbase6 : (engines_off_stage i
        (meco_stage i (throttle_stage (prof i).1 (prof i).2
          (drag_stage (weight_stage (normal_stage s)))))).base_mass =
        (if i = 155 then s.base_mass - upper_stage_mass else s.base_mass) := by
      rw [(engines_off_stage_fields i _).2, (meco_stage_fields i _).2.2,
        (throttle_stage_fields _ _ _).2, hpre.2.2.2.1]
    have hq6 : 0 ≤ (engines_off_stage i
        (meco_stage i (throttle_stage (prof i).1 (prof i).2
          (drag_stage (weight_stage (normal_stage s)))))).prop := by
      rw [hprop6]
      exact le_of_lt hppos
    obtain ⟨hdr0, hdr1, hdr2⟩ := drain_fold_bounds _ hok6.2 _ hq6
    have hfin :
        (rocket_step prof i s).prop =
          drain_fold (engines_off_stage i
            (meco_stage i (throttle_stage (prof i).1 (prof i).2
              (drag_stage (weight_stage (normal_stage s)))))).engines
            (engines_off_stage i
              (meco_stage i (throttle_stage (prof i).1 (prof i).2
                (drag_stage (weight_stage (normal_stage s)))))).prop := by
      rw [hstep, (motion_stage_fields _).1, (thrust_stage_fields _ _ _).1]
    have hlen9 : ((engines_off_stage i
        (meco_stage i (throttle_stage (prof i).1 (prof i).2
          (drag_stage (weight_stage (normal_stage s)))))).engines.length : ℝ) = 9 := by
      rw [hok6.1]
      norm_num
    refine ⟨?_, ?_, ?_, ?_, ?_⟩
    · rw [hstep, (motion_stage_fields _).2.2, (thrust_stage_fields _ _ _).2.2]
      exact hok6
    · rw [hfin]
      exact hdr0
    · rw [hfin, hprop6]
      rw [hprop6] at hdr1
      exact hdr1
    · rw [hfin, hprop6]
      rw [hprop6, hlen9] at hdr2
      exact hdr2
    · rw [hstep, (motion_stage_fields _).2.1, (thrust_stage_fields _ _ _).2.1, hbase6]
      by_cases hi : i = 155
      · rw [if_pos hi, if_pos ⟨hi, hppos⟩]
      · rw [if_neg hi, if_neg (fun hcon => hi hcon.1)]

/-- Propellant remaining at separation is positive: nine engines at full
throttle cannot exhaust the first-stage fuel within 155 one-second
ticks. -/
lemma sep_prop_pos : (0 : ℝ) < 395700 - 155 * (9 * max_drain) := by
  unfold max_drain MERLIN_MAX_THRUST MERLIN_ISP ACCEL_G TIME_STEP
  norm_num

/-- Invariant of the dynamics run: healthy engines, nonnegative propellant
bounded below by the initial fuel minus the maximal total drain so far,
and the base mass constant except for the one-time separation drop after
tick 155. -/
lemma run_inv (prof : ℕ → Option ℝ × Option ℝ) : ∀ n,
    engines_ok (run_sim prof n).engines ∧
    0 ≤ (run_sim prof n).prop ∧
    395700 - (n : ℝ) * (9 * max_drain) ≤ (run_sim prof n).prop ∧
    (run_sim prof n).base_mass = (if n ≤ 155 then (128970 : ℝ) else 25600) := by
  intro n
  induction n with
  | zero =>
      refine ⟨⟨?_, ?_⟩, ?_, ?_, ?_⟩
      · show (List.replicate 9 (⟨MERLIN_MAX_THRUST, MERLIN_ISP, 0⟩ : engine)).length = 9
        rw [List.length_replicate]
      · intro e he
        show e.max_thrust = MERLIN_MAX_THRUST ∧ e.isp = MERLIN_ISP ∧
          0 ≤ e.throttle ∧ e.throttle ≤ 1
        have : e = (⟨MERLIN_MAX_THRUST, MERLIN_ISP, 0⟩ : engine) :=
          (List.eq_of_mem_replicate he)
        rw [this]
        exact ⟨rfl, rfl, le_refl 0, by norm_num⟩
      · show (0:ℝ) ≤ 395700
        norm_num
      · show (395700 : ℝ) - (0 : ℕ) * (9 * max_drain) ≤ 395700
        push_cast
        ring_nf
        exact le_refl _
      · show (25600 : ℝ) + 3900 + 6800 + 92670 = if 0 ≤ 155 then (128970:ℝ) else 25600
        norm_num
  | succ n ih =>
      obtain ⟨hok, hp0, hlow, hbase⟩ := ih
      obtain ⟨hok', hp0', hmono, hlow', hbase'⟩ :=
        rocket_step_mass prof n (run_sim prof n) hok hp0
      have hrun : run_sim prof (n + 1) = rocket_step prof n (run_sim prof n) := rfl
      refine ⟨?_, ?_, ?_, ?_⟩
      · rw [hrun]; exact hok'
      · rw [hrun]; exact hp0'
      · rw [hrun]
        have : (((n : ℕ) + 1 : ℕ) : ℝ) * (9 * max_drain) =
            (n : ℝ) * (9 * max_drain) + 9 * max_drain := by
          push_cast
          ring
        rw [this]
        linarith
      · rw [hrun, hbase', hbase]
        by_cases hi : n = 155
        · subst hi
          have hppos : 0 < (run_sim prof 155).prop := by
            have := sep_prop_pos
            have h155 : ((155 : ℕ) : ℝ) = 155 := by norm_num
            rw [h155] at hlow
            linarith
          rw [if_pos ⟨rfl, hppos⟩, if_pos (le_refl 155), if_neg (by omega)]
          unfold upper_stage_mass
          norm_num
        · rw [if_neg (fun hcon => hi hcon.1)]
          by_cases hle : n ≤ 155
          · have h1 : n ≤ 154 := by omega
            rw [if_pos hle, if_pos (by omega : n + 1 ≤ 155)]
          · rw [if_neg hle, if_neg (by omega : ¬(n + 1 ≤ 155))]

/-- C8: over every run of the dynamics simulation (any replay profile),
the remaining propellant is never negative and never increases; the base
mass (dry plus full upper stage) is the constant 128970 through tick 155
and the constant 25600 afterwards, so the only non-drain mass change is a
single, irreversible subtraction of exactly the upper-stage mass
3900 + 92670 + 6800 at the tick with time 155 s; and across every tick the
total mass changes exactly by the propellant drained plus, at that one
tick, the upper-stage subtraction. -/
theorem C8_mass_accounting (prof : ℕ → Option ℝ × Option ℝ) (n : ℕ) :
    0 ≤ (run_sim prof n).prop ∧
    (run_sim prof (n + 1)).prop ≤ (run_sim prof n).prop ∧
    (run_sim prof n).base_mass = (if n ≤ 155 then (128970 : ℝ) else 25600) ∧
    (run_sim prof (n + 1)).mass =
      (run_sim prof n).mass +
        ((run_sim prof (n + 1)).prop - (run_sim prof n).prop) -
        (if n = 155 then upper_stage_mass else 0) := by
  obtain ⟨hok, hp0, hlow, hbase⟩ := run_inv prof n
  obtain ⟨hok', hp0', hmono, hlow', hbase'⟩ :=
    rocket_step_mass prof n (run_sim prof n) hok hp0
  have hrun : run_sim prof (n + 1) = rocket_step prof n (run_sim prof n) := rfl
  refine ⟨hp0, by rw [hrun]; exact hmono, hbase, ?_⟩
  unfold rstate.mass
  rw [hrun, hbase']
  by_cases hi : n = 155
  · subst hi
    have hppos : 0 < (run_sim prof 155).prop := by
      have := sep_prop_pos
      have h155 : ((155 : ℕ) : ℝ) = 155 := by norm_num
      rw [h155] at hlow
      linarith
    rw [if_pos ⟨rfl, hppos⟩, if_pos rfl]
    ring
  · rw [if_neg (fun hcon => hi hcon.1), if_neg hi]
    ring

/-! ## Curve-fit policy of setup_flight_profile (main.cpp lines 165-219)

The helpers liftoff::force, liftoff::fit and liftoff::lip live in
liftoff-physics/telem_proc, which is not in the snapshot. The forced-point
collector is modelled from the spec: the tag's magnitude is the number of
forced points taken at a leg boundary (value forcing for magnitude 1, with
consecutive boundary samples realizing the spec's first- and
higher-derivative continuity forcing for larger magnitudes), and the tag's
sign selects the boundary - positive for the first samples of the leg,
negative for the last. liftoff::fit (the constrained least-squares fit) is
kept as an opaque function parameter of the leg-fitting stage, since only
which arguments it receives is at issue; liftoff::lip, per its name and the
source comment that the order equals the number of forced points, is the
Lagrange interpolating polynomial through the collected points, embedded as
its evaluation function. -/

/-- Modelled from the spec: collect_forced_points / liftoff::force; see the
section comment. -/
def force_pts (series : ℚ → ℚ) (times : List ℚ) (tag : ℤ) : List (ℚ × ℚ) :=
  (if 0 ≤ tag then times.take tag.natAbs
   else times.drop (times.length - tag.natAbs)).map (fun t => (t, series t))

/-- Modelled from the source comment and name: liftoff::lip evaluates the
Lagrange interpolating polynomial through the given points. -/
def lip_eval (pts : List (ℚ × ℚ)) (x : ℚ) : ℚ :=
  (pts.map (fun p =>
    p.2 * ((pts.filter (fun q2 => q2.1 ≠ p.1)).map
      (fun q2 => (x - q2.1) / (p.1 - q2.1))).prod)).sum

/-- Leg 0 fitting call of setup_flight_profile (main.cpp lines 171-181):
least-squares fit of order 4 plus the forced-point count, forced at the
middle leg's first sample (tag 1 on times[1]). -/
def setup_leg0_fit (fit : ℕ → List ℚ → List ℚ → List (ℚ × ℚ) → (ℚ → ℚ))
    (series : ℚ → ℚ) (times0 legs0 times1 : List ℚ) : ℚ → ℚ :=
  fit (4 + (force_pts series times1 1).length) times0 legs0
    (force_pts series times1 1)

/-- Leg 2 fitting call of setup_flight_profile (tag -1 on times[1]). -/
def setup_leg2_fit (fit : ℕ → List ℚ → List ℚ → List (ℚ × ℚ) → (ℚ → ℚ))
    (series : ℚ → ℚ) (times2 legs2 times1 : List ℚ) : ℚ → ℚ :=
  fit (4 + (force_pts series times1 (-1)).length) times2 legs2
    (force_pts series times1 (-1))

/-- Middle-leg computation of setup_flight_profile (main.cpp lines
205-218): liftoff::lip applied to the forced points with tags -3 on
times[0] and 3 on times[2]; the middle leg's own samples are not an
argument. -/
def setup_mid_fit (series : ℚ → ℚ) (times0 times2 : List ℚ) : ℚ → ℚ :=
  lip_eval (force_pts series times0 (-3) ++ force_pts series times2 3)

/-- Forced points only sample the series at times of the given leg. -/
lemma force_pts_congr (s1 s2 : ℚ → ℚ) (times : List ℚ) (tag : ℤ)
    (h : ∀ u ∈ times, s1 u = s2 u) :
    force_pts s1 times tag = force_pts s2 times tag := by
  unfold force_pts
  split_ifs
  · apply List.map_congr_left
    intro t ht
    rw [h t (List.take_subset _ _ ht)]
  · apply List.map_congr_left
    intro t ht
    rw [h t (List.drop_subset _ _ ht)]

/-- Lagrange interpolation property of lip_eval: at any node of a point
list with pairwise distinct times, the interpolant takes the node's
value. -/
lemma lip_eval_interp (pts : List (ℚ × ℚ)) (hnd : (pts.map Prod.fst).Nodup)
    (p : ℚ × ℚ) (hp : p ∈ pts) : lip_eval pts p.1 = p.2 := by
  have hterm : ∀ r ∈ pts,
      r.2 * ((pts.filter (fun q2 => q2.1 ≠ r.1)).map
        (fun q2 => (p.1 - q2.1) / (r.1 - q2.1))).prod =
      (if r.1 = p.1 then r.2 else 0) := by
    intro r hr
    by_cases hrp : r.1 = p.1
    · rw [if_pos hrp]
      have hall : ∀ y ∈ (pts.filter (fun q2 => q2.1 ≠ r.1)).map
          (fun q2 => (p.1 - q2.1) / (r.1 - q2.1)), y = 1 := by
        intro y hy
        rw [List.mem_map] at hy
        obtain ⟨q2, hq2, rfl⟩ := hy
        rw [List.mem_filter] at hq2
        have hne : q2.1 ≠ r.1 := by simpa using hq2.2
        rw [hrp] at hne ⊢
        exact div_self (sub_ne_zero.mpr (Ne.symm hne))
      rw [List.prod_eq_one hall, mul_one]
    · rw [if_neg hrp]
      have hz : (0 : ℚ) ∈ (pts.filter (fun q2 => q2.1 ≠ r.1)).map
          (fun q2 => (p.1 - q2.1) / (r.1 - q2.1)) := by
        rw [List.mem_map]
        refine ⟨p, ?_, ?_⟩
        · rw [List.mem_filter]
          refine ⟨hp, ?_⟩
          simpa using fun h => hrp h.symm
        · rw [sub_self, zero_div]
      rw [List.prod_eq_zero hz, mul_zero]
  unfold lip_eval
  have hmapeq : pts.map (fun r =>
      r.2 * ((pts.filter (fun q2 => q2.1 ≠ r.1)).map
        (fun q2 => (p.1 - q2.1) / (r.1 - q2.1))).prod) =
      pts.map (fun r => if r.1 = p.1 then r.2 else 0) :=
    List.map_congr_left hterm
  rw [hmapeq]
  obtain ⟨l1, l2, rfl⟩ := List.append_of_mem hp
  rw [List.map_append] at hnd
  rw [List.map_cons] at hnd
  rw [List.nodup_append] at hnd
  obtain ⟨hnd1, hnd2, hdisj⟩ := hnd
  have hp1l1 : p.1 ∉ l1.map Prod.fst := by
    intro hmem
    exact hdisj hmem (List.mem_cons_self p.1 _)
  have hp1l2 : p.1 ∉ l2.map Prod.fst := (List.nodup_cons.mp hnd2).1
  rw [List.map_append, List.sum_append, List.map_cons, List.sum_cons, if_pos rfl]
  have h1 : (l1.map (fun r => if r.1 = p.1 then r.2 else 0)).sum = 0 := by
    apply List.sum_eq_zero
    intro y hy
    rw [List.mem_map] at hy
    obtain ⟨r, hr, rfl⟩ := hy
    rw [if_neg]
    intro hcon
    exact hp1l1 (hcon ▸ List.mem_map_of_mem Prod.fst hr)
  have h2 : (l2.map (fun r => if r.1 = p.1 then r.2 else 0)).sum = 0 := by
    apply List.sum_eq_zero
    intro y hy
    rw [List.mem_map] at hy
    obtain ⟨r, hr, rfl⟩ := hy
    rw [if_neg]
    intro hcon
    exact hp1l2 (hcon ▸ List.mem_map_of_mem Prod.fst hr)
  rw [h1, h2]
  ring

/-- C6 (amended): legs 0 and 2 are least-squares fit with order 4 plus the
number of forced points, forced at the middle leg's boundary sample (its
first sample for leg 0, its last for leg 2); but the middle leg is
produced by liftoff::lip - the Lagrange interpolant through the forced
boundary points alone (the last three samples of leg 0 and the first
three of leg 2, forcing tags -3 and 3) - whose output interpolates those
points and is entirely independent of the middle leg's own sample data,
rather than by a constrained least-squares fit of the middle leg. -/
theorem C6_fit_policy :
    (∀ (fit : ℕ → List ℚ → List ℚ → List (ℚ × ℚ) → (ℚ → ℚ))
        (series : ℚ → ℚ) (t : ℚ) (rest times0 legs0 : List ℚ),
      setup_leg0_fit fit series times0 legs0 (t :: rest) =
        fit 5 times0 legs0 [(t, series t)]) ∧
    (∀ (fit : ℕ → List ℚ → List ℚ → List (ℚ × ℚ) → (ℚ → ℚ))
        (series : ℚ → ℚ) (t : ℚ) (rest times2 legs2 : List ℚ),
      setup_leg2_fit fit series times2 legs2 (rest ++ [t]) =
        fit 5 times2 legs2 [(t, series t)]) ∧
    (∀ (series : ℚ → ℚ) (times0 times2 : List ℚ),
      setup_mid_fit series times0 times2 =
        lip_eval ((times0.drop (times0.length - 3)).map (fun u => (u, series u)) ++
          (times2.take 3).map (fun u => (u, series u)))) ∧
    (∀ (s1 s2 : ℚ → ℚ) (times0 times2 : List ℚ),
      (∀ u ∈ times0, s1 u = s2 u) → (∀ u ∈ times2, s1 u = s2 u) →
      setup_mid_fit s1 times0 times2 = setup_mid_fit s2 times0 times2) ∧
    (∀ (pts : List (ℚ × ℚ)), (pts.map Prod.fst).Nodup →
      ∀ p ∈ pts, lip_eval pts p.1 = p.2) := by
  refine ⟨?_, ?_, ?_, ?_, lip_eval_interp⟩
  · intro fit series t rest times0 legs0
    have hfp : force_pts series (t :: rest) 1 = [(t, series t)] := by
      unfold force_pts
      rw [if_pos (by norm_num)]
      rfl
    unfold setup_leg0_fit
    rw [hfp]
    norm_num
  · intro fit series t rest times2 legs2
    have hfp : force_pts series (rest ++ [t]) (-1) = [(t, series t)] := by
      unfold force_pts
      rw [if_neg (by norm_num)]
      have h1 : (rest ++ [t]).length - (-1 : ℤ).natAbs = rest.length := by
        simp
      rw [h1, List.drop_left]
      rfl
    unfold setup_leg2_fit
    rw [hfp]
    norm_num
  · intro series times0 times2
    unfold setup_mid_fit force_pts
    rw [if_neg (by norm_num), if_pos (by norm_num)]
    norm_num
  · intro s1 s2 times0 times2 h0 h2
    unfold setup_mid_fit
    rw [force_pts_congr s1 s2 times0 (-3) h0, force_pts_congr s1 s2 times2 3 h2]

/-- Witness for C6 at a concrete two-node list: the interpolant property is
applied with the nodup hypothesis discharged. -/
theorem C6_witness :
    (([((1 : ℚ), (5 : ℚ)), ((2 : ℚ), (7 : ℚ))].map Prod.fst).Nodup) ∧
    ((1 : ℚ), (5 : ℚ)) ∈ [((1 : ℚ), (5 : ℚ)), ((2 : ℚ), (7 : ℚ))] ∧
    lip_eval [((1 : ℚ), (5 : ℚ)), ((2 : ℚ), (7 : ℚ))] 1 = 5 :=
  ⟨by norm_num, by norm_num,
    C6_fit_policy.2.2.2.2 [((1 : ℚ), (5 : ℚ)), ((2 : ℚ), (7 : ℚ))] (by norm_num)
      ((1 : ℚ), (5 : ℚ)) (by norm_num)⟩

/-- Polynomial evaluation of an ascending coefficient list (claim-side
notion for the least-squares comparison). -/
def poly_val (c : List ℚ) (x : ℚ) : ℚ :=
  c.foldr (fun a acc => a + x * acc) 0

/-- Coefficientwise derivative helper: multiplies successive coefficients
by k, k+1, ... -/
def poly_deriv_aux (k : ℚ) : List ℚ → List ℚ
  | [] => []
  | a :: t => k * a :: poly_deriv_aux (k + 1) t

/-- Coefficientwise polynomial derivative. -/
def poly_deriv (c : List ℚ) : List ℚ :=
  match c with
  | [] => []
  | _ :: t => poly_deriv_aux 1 t

/-- Iterated derivative. -/
def deriv_iter : ℕ → List ℚ → List ℚ
  | 0, c => c
  | k + 1, c => deriv_iter k (poly_deriv c)

/-- A polynomial satisfies a constraint list when, for every entry
(k, t, v), its k-th derivative at time t equals v. -/
def satisfies_constraints (p : List ℚ) (cs : List (ℕ × ℚ × ℚ)) : Prop :=
  ∀ c ∈ cs, poly_val (deriv_iter c.1 p) c.2.1 = c.2.2

/-- Sum of squared errors of a polynomial over sample times and values. -/
def sse (p : List ℚ) (ts vs : List ℚ) : ℚ :=
  ((ts.zip vs).map (fun tv => (poly_val p tv.1 - tv.2) ^ 2)).sum

/-- Claim-side notion: f is a constrained least-squares polynomial fit of
the samples (ts, vs) of degree at most deg under the constraint list cs
when some coefficient list of that degree realizes f, satisfies every
constraint exactly, and has minimal squared error among all
constraint-satisfying polynomials of that degree. -/
def is_constrained_ls_fit (deg : ℕ) (ts vs : List ℚ) (cs : List (ℕ × ℚ × ℚ))
    (f : ℚ → ℚ) : Prop :=
  ∃ p : List ℚ, p.length ≤ deg + 1 ∧ (∀ x, poly_val p x = f x) ∧
    satisfies_constraints p cs ∧
    ∀ q : List ℚ, q.length ≤ deg + 1 → satisfies_constraints q cs →
      sse p ts vs ≤ sse q ts vs

/-- Concrete altitude series for the C6 counterexample: 0 at all fit
boundary samples, -1 at the middle-leg interior time 4. -/
def c6_series : ℚ → ℚ := fun t => if t = 4 then -1 else 0

/-- Value-and-derivative forcing constraints (orders 0, 1, 2) at the
middle-leg boundary times 3 and 5, as the claim's forcing order of
magnitude 3 prescribes; the targets are the boundary values and
derivatives of the surrounding profile, all zero in this scenario. -/
def c6_constraints : List (ℕ × ℚ × ℚ) :=
  [(0, 3, 0), (1, 3, 0), (2, 3, 0), (0, 5, 0), (1, 5, 0), (2, 5, 0)]

/-- The explicit competitor (x - 3)^3 * (x - 5)^3, which satisfies all six
boundary constraints and passes through the middle-leg data exactly. -/
def c6_q : List ℚ :=
  [3375, -5400, 3555, -1232, 237, -24, 1]

lemma c6_mid_val (x : ℚ) :
    setup_mid_fit c6_series [0, 1, 2] [6, 7, 8] x = 0 := by
  unfold setup_mid_fit force_pts lip_eval c6_series
  norm_num

/-- C6 counterexample: on the concrete profile whose middle-leg samples at
times 3, 4, 5 are 0, -1, 0, the middle-leg polynomial computed by the code
(the Lagrange interpolant of the six zero boundary samples, identically 0)
is not a constrained least-squares fit of the middle leg for any
realizing coefficient list up to degree 10 (order 4 plus the six forced
points): the competitor (x-3)^3 (x-5)^3 satisfies the same boundary
constraints with squared error 0, while the code's polynomial misses the
interior sample with squared error 1. -/
theorem C6_counterexample :
    ¬ is_constrained_ls_fit 10 [3, 4, 5] [0, -1, 0] c6_constraints
      (setup_mid_fit c6_series [0, 1, 2] [6, 7, 8]) := by
  intro ⟨p, hlen, hfun, hcon, hmin⟩
  have hqlen : c6_q.length ≤ 10 + 1 := by
    unfold c6_q
    norm_num
  have hqcon : satisfies_constraints c6_q c6_constraints := by
    intro c hc
    unfold c6_constraints at hc
    fin_cases hc <;>
      norm_num [c6_q, deriv_iter, poly_deriv, poly_deriv_aux, poly_val]
  have hqsse : sse c6_q [3, 4, 5] [0, -1, 0] = 0 := by
    norm_num [sse, c6_q, poly_val]
  have hpsse : sse p [3, 4, 5] [0, -1, 0] = 1 := by
    unfold sse
    have h3 : poly_val p 3 = 0 := by rw [hfun 3, c6_mid_val]
    have h4 : poly_val p 4 = 0 := by rw [hfun 4, c6_mid_val]
    have h5 : poly_val p 5 = 0 := by rw [hfun 5, c6_mid_val]
    norm_num [h3, h4, h5]
  have := hmin c6_q hqlen hqcon
  rw [hpsse, hqsse] at this
  norm_num at this
